import Mathlib

/-!
Verification of `backend/models/wait_times.py`.

Shallow embedding conventions:
* Timestamps, indices and intermediate time quantities are integers (Python ints /
  numpy int64 values); statistics handed back to the caller are rationals, the
  exact values of the corresponding Python float computations.
* numpy arrays are lists.  `np.searchsorted(xs, v, side='left')` on a sorted
  array is the number of elements strictly below `v`; `np.sort` on integers is
  modelled by `List.insertionSort`, which produces the same (unique) sorted
  permutation.
* Python `None` is `Option.none`.  The `AssertionError` raised by
  `get_cumulative_distribution` is the `Except.error` case of its result type,
  so that "no data" (`Except.ok none`) and a fault are distinguished.
* `interval_time_values[-1]` (Python negative indexing) is `List.getLastD _ 0`;
  every use below is guarded so that the list is non-empty exactly when the
  Python code would not raise an `IndexError`.
-/

namespace WaitTimes

/-- Model of `np.searchsorted(xs, v, side='left')` for a sorted array `xs`:
the number of entries strictly smaller than `v`. -/
def np_searchsorted_left {α : Type} [LinearOrder α] (xs : List α) (v : α) : Nat :=
  xs.countP (fun x => decide (x < v))

/-- Model of `np.min` on a non-empty array (`0` as a junk value for `[]`). -/
def np_min (tv : List Int) : Int :=
  match tv with
  | [] => 0
  | x :: rest => rest.foldl min x

/-- Model of `np.max` on a non-empty array (`0` as a junk value for `[]`). -/
def np_max (tv : List Int) : Int :=
  match tv with
  | [] => 0
  | x :: rest => rest.foldl max x

/-- State of a `WaitTimeStats` object after `__init__` has run.  For the empty
input the Python object only has `time_values` and `is_empty`; the remaining
fields keep junk defaults, and every query method is guarded by `is_empty`. -/
structure WaitTimeStats where
  time_values : List Int
  is_empty : Bool
  interval_start : Int
  interval_end : Int
  start_arrival_index : Nat
  end_arrival_index : Nat
  interval_time_values : List Int
  interval_headways : List Int
  end_elapsed_time : Int
  end_wait_time : Option Int
deriving Repr, DecidableEq

/-- Lines 116-118: `interval_start = int(max(first_bus_time, start_time) if
start_time is not None else first_bus_time)`. -/
def clip_start (tv : List Int) (start_time : Option Int) : Int :=
  match start_time with
  | some st => max (np_min tv) st
  | none => np_min tv

/-- Lines 120-123: `interval_end = int(max(min(last_bus_time, end_time) if
end_time is not None else last_bus_time, interval_start))`. -/
def clip_end (tv : List Int) (start_time end_time : Option Int) : Int :=
  max
    (match end_time with
     | some et => min (np_max tv) et
     | none => np_max tv)
    (clip_start tv start_time)

/-- Lines 110-143 of `WaitTimeStats.__init__` before the tail-revision branch:
interval clipping, arrival indices, the in-interval slice, headways
(`np.diff(..., prepend=interval_start)`), `end_elapsed_time` and
`end_wait_time`.  `is_empty` is set by `get_stats` afterwards. -/
def stats_base (tv : List Int) (start_time end_time : Option Int) : WaitTimeStats :=
  let interval_start := clip_start tv start_time
  let interval_end := clip_end tv start_time end_time
  let s_idx := np_searchsorted_left tv interval_start
  let e_idx := np_searchsorted_left tv interval_end
  let slice := if s_idx < e_idx then (tv.drop s_idx).take (e_idx - s_idx) else []
  let headways :=
    if s_idx < e_idx then List.zipWith (fun a b => a - b) slice (interval_start :: slice) else []
  let ee0 : Int :=
    if s_idx < e_idx then interval_end - slice.getLastD 0 else interval_end - interval_start
  let ewt : Option Int :=
    if e_idx < tv.length then some (tv.getD e_idx 0 - interval_end) else none
  { time_values := tv
    is_empty := false
    interval_start := interval_start
    interval_end := interval_end
    start_arrival_index := s_idx
    end_arrival_index := e_idx
    interval_time_values := slice
    interval_headways := headways
    end_elapsed_time := ee0
    end_wait_time := ewt }

/-- `get_stats` / `WaitTimeStats.__init__` (lines 11-12 and 103-148): the base
computation, then the tail-revision branch (lines 142-146: when there is no
arrival at or after the interval and `end_elapsed_time > 0`, force
`end_elapsed_time = 0` and redefine `interval_end` to the last in-interval
arrival), then `is_empty` (line 148). -/
def get_stats (tv : List Int) (start_time end_time : Option Int) : WaitTimeStats :=
  if tv = [] then
    { time_values := tv, is_empty := true, interval_start := 0, interval_end := 0,
      start_arrival_index := 0, end_arrival_index := 0, interval_time_values := [],
      interval_headways := [], end_elapsed_time := 0, end_wait_time := none }
  else
    let base := stats_base tv start_time end_time
    let s1 :=
      if base.end_wait_time = none ∧ 0 < base.end_elapsed_time then
        { base with end_elapsed_time := 0,
                    interval_end := base.interval_time_values.getLastD 0 }
      else base
    { s1 with is_empty := decide (s1.interval_end - s1.interval_start ≤ 0) }

/-- Lines 150-167, `get_average`: triangles for each in-interval headway, plus
a rectangle and triangle for the tail when `end_wait_time` is defined, divided
by the interval length and by 60. -/
def get_average (s : WaitTimeStats) : Option ℚ :=
  if s.is_empty then none
  else
    let total_wait : ℚ :=
      (if 0 < s.interval_headways.length then
        ((s.interval_headways.map (fun h => ((h : ℚ)) ^ 2)).sum) / 2
       else 0)
      +
      (match s.end_wait_time with
       | some ewt => (ewt : ℚ) * (s.end_elapsed_time : ℚ) + ((s.end_elapsed_time : ℚ)) ^ 2 / 2
       | none => 0)
    some (total_wait / ((s.interval_end : ℚ) - (s.interval_start : ℚ)) / 60)

/-- Lines 216-237, the loop of `get_cumulative_distribution`.  The remaining
list is a suffix of the sorted breakpoint array, so its length equals
`num_wait_time_values - i`, the Python `num_occurrences_with_smaller_wait_time`
before the tail adjustment.  Returns the emitted points and `tot_elapsed`. -/
def cdf_loop (ewt : Option Int) (ie : Int) :
    List Int → Option Int → Int → List (ℚ × ℚ) → List (ℚ × ℚ) × Int
  | [], _, tot, points => (points, tot)
  | w :: rest, prev, tot, points =>
    let act : Bool := match prev with | none => true | some p => decide (p < w)
    if act then
      let num0 : Int := (w :: rest).length
      let num : Int :=
        match ewt with
        | some e => if w ≤ e then num0 - 2 else num0
        | none => num0
      let elapsed : Int := match prev with | none => 0 | some p => (w - p) * num
      cdf_loop ewt ie rest (some w) (tot + elapsed)
        (points ++ [((w : ℚ) / 60, ((tot + elapsed : Int) : ℚ) / (ie : ℚ))])
    else
      cdf_loop ewt ie rest prev tot points

/-- Lines 169-237 of `get_cumulative_distribution`: the breakpoint multiset
(lines 190-200) and the loop, before the final invariant check.  `none` is the
"no data" result. -/
def cdf_compute (s : WaitTimeStats) : Option (List (ℚ × ℚ)) :=
  if s.is_empty then none
  else
    let ie := s.interval_end - s.interval_start
    let has_arrival : Bool := decide (0 < s.interval_headways.length)
    let wvs? : Option (List Int) :=
      match s.end_wait_time with
      | some ewt =>
        some (s.interval_headways ++ [ewt, ewt + s.end_elapsed_time] ++
          (if has_arrival then [0] else []))
      | none => if has_arrival then some (0 :: s.interval_headways) else none
    match wvs? with
    | none => none
    | some wvs =>
      let sorted_wvs := List.insertionSort (· ≤ ·) wvs
      some (cdf_loop s.end_wait_time ie sorted_wvs none 0 []).1

/-- Lines 169-256, `get_cumulative_distribution` including the postcondition
check of lines 242-252: `points[-1][1] != 1 or points[0][1] != 0` raises
`AssertionError`, modelled as `Except.error`. -/
def get_cumulative_distribution (s : WaitTimeStats) :
    Except String (Option (List (ℚ × ℚ))) :=
  match cdf_compute s with
  | none => Except.ok none
  | some points =>
    if points.getLast?.map Prod.snd ≠ some 1 ∨ points.head?.map Prod.snd ≠ some 0 then
      Except.error "Invalid cumulative distribution"
    else
      Except.ok (some points)

/-- Lines 267-278: quantile lookup for one requested quantile, by binary search
on the probability column and linear interpolation.  Out-of-range indexing,
which would raise in Python, is modelled with `getD` junk values; all theorems
below only evaluate it in bounds. -/
def quantile_of (pts : List (ℚ × ℚ)) (q : ℚ) : ℚ :=
  let d := pts.map Prod.fst
  let r := pts.map Prod.snd
  let ei := np_searchsorted_left r q
  if ei = 0 then d.getD 0 0
  else
    let si := ei - 1
    d.getD si 0 +
      (q - r.getD si 0) / (r.getD ei 0 - r.getD si 0) * (d.getD ei 0 - d.getD si 0)

/-- Lines 258-280, `get_quantiles`. -/
def get_quantiles (s : WaitTimeStats) (quantiles : List ℚ) :
    Except String (Option (List ℚ)) :=
  match get_cumulative_distribution s with
  | Except.error e => Except.error e
  | Except.ok none => Except.ok none
  | Except.ok (some pts) => Except.ok (some (quantiles.map (quantile_of pts)))

/-- Lines 282-283, `get_percentiles`. -/
def get_percentiles (s : WaitTimeStats) (percentiles : List ℚ) :
    Except String (Option (List ℚ)) :=
  get_quantiles s (percentiles.map (fun p => p / 100))

/-- Lines 321-335, `_get_probability_less_than`: binary search on the wait-time
column and linear interpolation. -/
def prob_less_of (pts : List (ℚ × ℚ)) (wait_time : ℚ) : ℚ :=
  let d := pts.map Prod.fst
  let r := pts.map Prod.snd
  let ei := np_searchsorted_left d wait_time
  if d.length ≤ ei then 1
  else if ei = 0 then 0
  else
    let si := ei - 1
    r.getD si 0 +
      (wait_time - d.getD si 0) / (d.getD ei 0 - d.getD si 0) * (r.getD ei 0 - r.getD si 0)

/-- Lines 304-311, `get_probability_less_than`. -/
def get_probability_less_than (s : WaitTimeStats) (wait_time : ℚ) :
    Except String (Option ℚ) :=
  match get_cumulative_distribution s with
  | Except.error e => Except.error e
  | Except.ok none => Except.ok none
  | Except.ok (some pts) => Except.ok (some (prob_less_of pts wait_time))

/-- Lines 313-319, `get_probability_greater_than`. -/
def get_probability_greater_than (s : WaitTimeStats) (wait_time : ℚ) :
    Except String (Option ℚ) :=
  match get_probability_less_than s wait_time with
  | Except.error e => Except.error e
  | Except.ok none => Except.ok none
  | Except.ok (some p) => Except.ok (some (1 - p))

/-- Lines 292-300, the loop of `get_histogram`: walk the bin edges, keep the
previous cumulative value, append the difference for each adjacent pair. -/
def histogram_loop (pts : List (ℚ × ℚ)) :
    List ℚ → Option ℚ → List ℚ → List ℚ
  | [], _, acc => acc
  | b :: rest, prev, acc =>
    let c := prob_less_of pts b
    let acc' := match prev with | none => acc | some pv => acc ++ [c - pv]
    histogram_loop pts rest (some c) acc'

/-- Lines 285-302, `get_histogram`. -/
def get_histogram (s : WaitTimeStats) (bins : List ℚ) :
    Except String (Option (List ℚ)) :=
  match get_cumulative_distribution s with
  | Except.error e => Except.error e
  | Except.ok none => Except.ok none
  | Except.ok (some pts) => Except.ok (some (histogram_loop pts bins none []))

/-- Model of `np.arange(start, stop, step)` for a positive step. -/
def arange (start stop step : Int) : List Int :=
  if 0 < step then
    (List.range (((stop - start).toNat + step.toNat - 1) / step.toNat)).map
      (fun k => start + step * (k : Int))
  else []

/-- Lines 337-356, `get_sampled_waits`: sample instants aligned to multiples of
`sample_sec`, for each one the wait until the next arrival (in-interval
arrivals plus the synthetic tail arrival at `interval_end + end_wait_time`).
The trailing `np.nan` sentinel and the final `isnan` filter are modelled by
`filterMap`: samples with no following arrival are dropped. -/
def get_sampled_waits (s : WaitTimeStats) (sample_sec : Int) : Option (List ℚ) :=
  if s.is_empty then none
  else
    let sample_time_values :=
      arange (s.interval_start - s.interval_start % sample_sec) s.interval_end sample_sec
    let arrival_time_values :=
      s.interval_time_values ++
        (match s.end_wait_time with
         | some ewt => [s.interval_end + ewt]
         | none => [])
    some (sample_time_values.filterMap (fun t =>
      (arrival_time_values.find? (fun a => decide (t ≤ a))).map
        (fun a => ((a - t : Int) : ℚ) / 60)))

/-- Monotonicity relation between consecutive CDF points: wait times strictly
increase and cumulative probabilities never decrease. -/
def cdf_point_mono (a b : ℚ × ℚ) : Prop := a.1 < b.1 ∧ a.2 ≤ b.2

/-- Largest value `≤ e` seen so far while folding over a list, starting at `p`;
the telescoped total of the subtract-2 adjustments of the loop. -/
def maxLe (e : Int) : Int → List Int → Int
  | p, [] => p
  | p, x :: rest => if x ≤ e then maxLe e (max p x) rest else maxLe e p rest

/-- Model of Python's `\w` character class restricted to ASCII (a word
character: letter, digit or underscore). -/
def is_word_char (c : Char) : Bool := c.isAlphanum || c = '_'

/-- Model of `re.match('^[\w\-]+$', s) is not None`. -/
def matches_id_pattern (s : String) : Bool :=
  decide (0 < s.length) && s.toList.all (fun c => is_word_char c || c = '-')

/-- Model of `re.match('^[\w\-\+]*$', s) is not None`. -/
def matches_time_range_pattern (s : String) : Bool :=
  s.toList.all (fun c => is_word_char c || c = '-' || c = '+')

/-- Lines 417-421, `get_time_range_path`.  `none` models the `AttributeError`
raised when exactly one of the two time strings is `None`. -/
def get_time_range_path (start_time_str end_time_str : Option String) : Option String :=
  match start_time_str, end_time_str with
  | none, none => some ""
  | some sts, some ets =>
    some ("_" ++ (sts.replace ":" "") ++ "_" ++ (ets.replace ":" ""))
  | _, _ => none

/-- Lines 429-448, `get_cache_path`: validate `agency_id`, the date string,
`version` and `stat_id` against `^[\w\-]+$` and the time-range suffix against
`^[\w\-\+]*$`, in source order, before assembling the file-system path.
`util.get_data_dir()` is an external collaborator and is passed in as
`data_dir`.  `Except.error` models the raised `Exception`. -/
def get_cache_path (data_dir agency_id date_str stat_id : String)
    (start_time_str end_time_str : Option String) (version : String) :
    Except String String :=
  match get_time_range_path start_time_str end_time_str with
  | none => Except.error "AttributeError"
  | some time_range_path =>
    if matches_id_pattern agency_id = false then
      Except.error ("Invalid agency: " ++ agency_id)
    else if matches_id_pattern date_str = false then
      Except.error ("Invalid date: " ++ date_str)
    else if matches_id_pattern version = false then
      Except.error ("Invalid version: " ++ version)
    else if matches_id_pattern stat_id = false then
      Except.error ("Invalid stat id: " ++ stat_id)
    else if matches_time_range_pattern time_range_path = false then
      Except.error ("Invalid time range: " ++ time_range_path)
    else
      Except.ok (data_dir ++ "/wait-times_" ++ version ++ "_" ++ agency_id ++ "/" ++
        date_str ++ "/wait-times_" ++ version ++ "_" ++ agency_id ++ "_" ++ date_str ++
        "_" ++ stat_id ++ time_range_path ++ ".json")

/-- Lines 423-427, `get_s3_path`.  The date is passed as its string form
`date_str` (`str(d)`) and its slash form `date_path` (`d.strftime("%Y/%m/%d")`). -/
def get_s3_path (agency_id date_str date_path stat_id : String)
    (start_time_str end_time_str : Option String) (version : String) : Option String :=
  match get_time_range_path start_time_str end_time_str with
  | none => none
  | some time_range_path =>
    some ("wait-times/" ++ version ++ "/" ++ agency_id ++ "/" ++ date_path ++
      "/wait-times_" ++ version ++ "_" ++ agency_id ++ "_" ++ date_str ++ "_" ++
      stat_id ++ time_range_path ++ ".json.gz")

/-- I/O operations `get_cached_wait_times` may perform. -/
inductive IOAction where
  | fileOpen : String → IOAction
  | httpGet : String → IOAction
deriving Repr, DecidableEq

/-- Lines 382-415, `get_cached_wait_times`, abstracted to the sequence of I/O
it may attempt, in program order: it builds the cache path first (which
performs all identifier validation), then reads the local cache file, and only
on a cache miss issues the HTTP GET to S3.  A validation failure inside
`get_cache_path` propagates before any I/O action is produced. -/
def get_cached_wait_times_actions (data_dir s3_bucket agency_id date_str date_path
    stat_id : String) (start_time_str end_time_str : Option String) (version : String) :
    Except String (List IOAction) :=
  match get_cache_path data_dir agency_id date_str stat_id
      start_time_str end_time_str version with
  | Except.error e => Except.error e
  | Except.ok cache_path =>
    let s3_path :=
      (get_s3_path agency_id date_str date_path stat_id
        start_time_str end_time_str version).getD ""
    Except.ok [IOAction.fileOpen cache_path,
      IOAction.httpGet ("http://" ++ s3_bucket ++ ".s3.amazonaws.com/" ++ s3_path)]

end WaitTimes

namespace WaitTimes

/-! Helper lemmas about `np_min`, `np_max` and `np_searchsorted_left` on sorted
arrays. -/

lemma foldl_min_eq (x : Int) (l : List Int) (hx : ∀ y ∈ l, x ≤ y) :
    l.foldl min x = x := by
  induction l generalizing x with
  | nil => rfl
  | cons y l ih =>
    have hxy : min x y = x := min_eq_left (hx y (by simp))
    simp only [List.foldl_cons, hxy]
    exact ih x (fun z hz => hx z (by simp [hz]))

lemma np_min_eq_head (tv : List Int) (h : tv ≠ []) (hs : List.Sorted (· ≤ ·) tv) :
    np_min tv = tv.head h := by
  cases tv with
  | nil => exact absurd rfl h
  | cons x rest =>
    obtain ⟨hx, _⟩ := List.sorted_cons.mp hs
    simpa [np_min] using foldl_min_eq x rest hx

lemma foldl_max_eq_getLast (l : List Int) (x : Int) (hs : List.Sorted (· ≤ ·) (x :: l)) :
    l.foldl max x = (x :: l).getLast (List.cons_ne_nil x l) := by
  induction l generalizing x with
  | nil => rfl
  | cons y l ih =>
    obtain ⟨hx, hrest⟩ := List.sorted_cons.mp hs
    have hmax : max x y = y := max_eq_right (hx y (by simp))
    simp only [List.foldl_cons, hmax]
    rw [ih y hrest]
    simp [List.getLast_cons]

lemma np_max_eq_getLast (tv : List Int) (h : tv ≠ []) (hs : List.Sorted (· ≤ ·) tv) :
    np_max tv = tv.getLast h := by
  cases tv with
  | nil => exact absurd rfl h
  | cons x rest => simpa [np_max] using foldl_max_eq_getLast rest x hs

lemma np_searchsorted_le_length {α : Type} [LinearOrder α] (l : List α) (v : α) :
    np_searchsorted_left l v ≤ l.length :=
  List.countP_le_length _

lemma sorted_countP_iff {α : Type} [LinearOrder α] :
    ∀ (l : List α), List.Sorted (· ≤ ·) l → ∀ (v : α) (i : ℕ) (hi : i < l.length),
      (l[i] < v ↔ i < np_searchsorted_left l v)
  | [], _, v, i, hi => by simp at hi
  | x :: rest, hs, v, i, hi => by
    obtain ⟨hx, hrest⟩ := List.sorted_cons.mp hs
    have hcnt : np_searchsorted_left (x :: rest) v
        = np_searchsorted_left rest v + (if x < v then 1 else 0) := by
      simp [np_searchsorted_left, List.countP_cons]
    cases i with
    | zero =>
      simp only [List.getElem_cons_zero, hcnt]
      constructor
      · intro hxv
        simp [if_pos hxv]
      · intro hpos
        by_contra hxv
        rw [if_neg hxv, Nat.add_zero] at hpos
        obtain ⟨y, hy, hyv⟩ := List.countP_pos_iff.mp hpos
        have hle : x ≤ y := hx y hy
        have hylt : y < v := by simpa using hyv
        exact hxv (lt_of_le_of_lt hle hylt)
    | succ j =>
      have hj : j < rest.length := by simpa [List.length_cons] using hi
      have := sorted_countP_iff rest hrest v j hj
      simp only [List.getElem_cons_succ, hcnt]
      constructor
      · intro hlt
        have hjc := this.mp hlt
        have hxv : x < v := lt_of_le_of_lt (hx _ (List.getElem_mem hj)) hlt
        rw [if_pos hxv]
        omega
      · intro hlt
        have : j < np_searchsorted_left rest v := by
          by_cases hxv : x < v
          · rw [if_pos hxv] at hlt; omega
          · rw [if_neg hxv] at hlt; omega
        exact (sorted_countP_iff rest hrest v j hj).mpr this

end WaitTimes

namespace WaitTimes

lemma sorted_le_get_countP {α : Type} [LinearOrder α] (l : List α)
    (hs : List.Sorted (· ≤ ·) l) (v : α) (i : ℕ) (hi : i < l.length)
    (h : np_searchsorted_left l v ≤ i) : v ≤ l[i] := by
  by_contra hlt
  have := (sorted_countP_iff l hs v i hi).mp (lt_of_not_le hlt)
  omega

lemma countP_eq_length_iff_all (tv : List Int) (v : Int) :
    np_searchsorted_left tv v = tv.length ↔ ∀ x ∈ tv, x < v := by
  unfold np_searchsorted_left
  rw [List.countP_eq_length]
  constructor
  · intro h x hx; simpa using h x hx
  · intro h x hx; simpa using h x hx

lemma clip_end_cases (tv : List Int) (st et : Option Int) :
    clip_end tv st et ≤ np_max tv ∨ clip_end tv st et = clip_start tv st := by
  unfold clip_end
  rcases max_choice
      (match et with | some q => min (np_max tv) q | none => np_max tv)
      (clip_start tv st) with h | h
  · rw [h]; left
    cases et with
    | none => exact le_refl _
    | some q => exact min_le_left _ _
  · rw [h]; right; rfl

lemma clip_start_le_clip_end (tv : List Int) (st et : Option Int) :
    clip_start tv st ≤ clip_end tv st et := le_max_right _ _

lemma stats_branch_off (tv : List Int) (st et : Option Int) (htv : tv ≠ [])
    (hs : List.Sorted (· ≤ ·) tv) :
    ¬((stats_base tv st et).end_wait_time = none ∧
      0 < (stats_base tv st et).end_elapsed_time) := by
  rintro ⟨hnone, hpos⟩
  simp only [stats_base] at hnone hpos
  by_cases hlt : np_searchsorted_left tv (clip_end tv st et) < tv.length
  · rw [if_pos hlt] at hnone
    exact Option.some_ne_none _ hnone
  · have hle := np_searchsorted_le_length tv (clip_end tv st et)
    have heq : np_searchsorted_left tv (clip_end tv st et) = tv.length := by omega
    have hall : ∀ x ∈ tv, x < clip_end tv st et :=
      (countP_eq_length_iff_all tv _).mp heq
    have hlast : tv.getLast htv < clip_end tv st et := hall _ (List.getLast_mem htv)
    have hba : clip_end tv st et = clip_start tv st := by
      rcases clip_end_cases tv st et with h | h
      · rw [np_max_eq_getLast tv htv hs] at h; omega
      · exact h
    have hidx : np_searchsorted_left tv (clip_start tv st)
        = np_searchsorted_left tv (clip_end tv st et) := by rw [hba]
    rw [if_neg (by omega :
      ¬ np_searchsorted_left tv (clip_start tv st)
        < np_searchsorted_left tv (clip_end tv st et))] at hpos
    omega

lemma get_stats_eq (tv : List Int) (st et : Option Int) (htv : tv ≠ [])
    (hs : List.Sorted (· ≤ ·) tv) :
    get_stats tv st et =
      { stats_base tv st et with
        is_empty := decide ((stats_base tv st et).interval_end
          - (stats_base tv st et).interval_start ≤ 0) } := by
  have hb := stats_branch_off tv st et htv hs
  simp only [get_stats]
  rw [if_neg htv, if_neg hb]

lemma get_stats_interval_start (tv : List Int) (st et : Option Int) (htv : tv ≠ [])
    (hs : List.Sorted (· ≤ ·) tv) :
    (get_stats tv st et).interval_start = clip_start tv st := by
  rw [get_stats_eq tv st et htv hs]
  simp only [stats_base]

lemma get_stats_interval_end (tv : List Int) (st et : Option Int) (htv : tv ≠ [])
    (hs : List.Sorted (· ≤ ·) tv) :
    (get_stats tv st et).interval_end = clip_end tv st et := by
  rw [get_stats_eq tv st et htv hs]
  simp only [stats_base]

lemma get_stats_end_wait_time (tv : List Int) (st et : Option Int) (htv : tv ≠ [])
    (hs : List.Sorted (· ≤ ·) tv) :
    (get_stats tv st et).end_wait_time =
      (if np_searchsorted_left tv (clip_end tv st et) < tv.length then
        some (tv.getD (np_searchsorted_left tv (clip_end tv st et)) 0 - clip_end tv st et)
       else none) := by
  rw [get_stats_eq tv st et htv hs]
  simp only [stats_base]

lemma get_stats_end_elapsed_time (tv : List Int) (st et : Option Int) (htv : tv ≠ [])
    (hs : List.Sorted (· ≤ ·) tv) :
    (get_stats tv st et).end_elapsed_time =
      (if np_searchsorted_left tv (clip_start tv st)
          < np_searchsorted_left tv (clip_end tv st et) then
        clip_end tv st et -
          ((tv.drop (np_searchsorted_left tv (clip_start tv st))).take
            (np_searchsorted_left tv (clip_end tv st et)
              - np_searchsorted_left tv (clip_start tv st))).getLastD 0
       else clip_end tv st et - clip_start tv st) := by
  rw [get_stats_eq tv st et htv hs]
  simp only [stats_base]
  by_cases h : np_searchsorted_left tv (clip_start tv st)
      < np_searchsorted_left tv (clip_end tv st et) <;> simp [h]

lemma get_stats_interval_time_values (tv : List Int) (st et : Option Int) (htv : tv ≠ [])
    (hs : List.Sorted (· ≤ ·) tv) :
    (get_stats tv st et).interval_time_values =
      (if np_searchsorted_left tv (clip_start tv st)
          < np_searchsorted_left tv (clip_end tv st et) then
        (tv.drop (np_searchsorted_left tv (clip_start tv st))).take
          (np_searchsorted_left tv (clip_end tv st et)
            - np_searchsorted_left tv (clip_start tv st))
       else []) := by
  rw [get_stats_eq tv st et htv hs]
  simp only [stats_base]

lemma get_stats_interval_headways (tv : List Int) (st et : Option Int) (htv : tv ≠ [])
    (hs : List.Sorted (· ≤ ·) tv) :
    (get_stats tv st et).interval_headways =
      (if np_searchsorted_left tv (clip_start tv st)
          < np_searchsorted_left tv (clip_end tv st et) then
        List.zipWith (fun a b => a - b)
          ((tv.drop (np_searchsorted_left tv (clip_start tv st))).take
            (np_searchsorted_left tv (clip_end tv st et)
              - np_searchsorted_left tv (clip_start tv st)))
          (clip_start tv st ::
            (tv.drop (np_searchsorted_left tv (clip_start tv st))).take
              (np_searchsorted_left tv (clip_end tv st et)
                - np_searchsorted_left tv (clip_start tv st)))
       else []) := by
  rw [get_stats_eq tv st et htv hs]
  simp only [stats_base]
  by_cases h : np_searchsorted_left tv (clip_start tv st)
      < np_searchsorted_left tv (clip_end tv st et) <;> simp [h]

lemma get_stats_is_empty (tv : List Int) (st et : Option Int) (htv : tv ≠ [])
    (hs : List.Sorted (· ≤ ·) tv) :
    (get_stats tv st et).is_empty
      = decide (clip_end tv st et - clip_start tv st ≤ 0) := by
  rw [get_stats_eq tv st et htv hs]
  simp only [stats_base]

lemma get_stats_is_empty_false (tv : List Int) (st et : Option Int) (htv : tv ≠ [])
    (hs : List.Sorted (· ≤ ·) tv) :
    ((get_stats tv st et).is_empty = false ↔ clip_start tv st < clip_end tv st et) := by
  rw [get_stats_is_empty tv st et htv hs]
  simp only [decide_eq_false_iff_not]
  omega

end WaitTimes

namespace WaitTimes

/-! Facts about the in-interval slice and the headway differences. -/

lemma getLastD_mem (l : List Int) (h : l ≠ []) (d : Int) : l.getLastD d ∈ l := by
  rw [List.getLastD_eq_getLast?, List.getLast?_eq_getLast l h]
  exact List.getLast_mem h

lemma getLastD_irrel (l : List Int) (h : l ≠ []) (d d' : Int) :
    l.getLastD d = l.getLastD d' := by
  rw [List.getLastD_eq_getLast?, List.getLastD_eq_getLast?, List.getLast?_eq_getLast l h]
  rfl

lemma slice_elem_bounds (tv : List Int) (hs : List.Sorted (· ≤ ·) tv) (va vb : Int) :
    ∀ x ∈ (tv.drop (np_searchsorted_left tv va)).take
      (np_searchsorted_left tv vb - np_searchsorted_left tv va), va ≤ x ∧ x < vb := by
  intro x hx
  obtain ⟨j, hj, rfl⟩ := List.mem_iff_getElem.mp hx
  have hj1 : j < np_searchsorted_left tv vb - np_searchsorted_left tv va := by
    have := hj
    simp only [List.length_take] at this
    omega
  have hj2 : j < (tv.drop (np_searchsorted_left tv va)).length := by
    have := hj
    simp only [List.length_take] at this
    omega
  have hlen : np_searchsorted_left tv va + j < tv.length := by
    simp only [List.length_drop] at hj2
    omega
  rw [List.getElem_take, List.getElem_drop]
  constructor
  · exact sorted_le_get_countP tv hs va _ hlen (Nat.le_add_right _ _)
  · exact (sorted_countP_iff tv hs vb _ hlen).mpr (by omega)

lemma slice_sorted (tv : List Int) (hs : List.Sorted (· ≤ ·) tv) (n m : ℕ) :
    List.Sorted (· ≤ ·) ((tv.drop n).take m) :=
  hs.sublist ((List.take_sublist _ _).trans (List.drop_sublist _ _))

lemma slice_length_eq (tv : List Int) (va vb : Int)
    (h : np_searchsorted_left tv vb ≤ tv.length) :
    ((tv.drop (np_searchsorted_left tv va)).take
      (np_searchsorted_left tv vb - np_searchsorted_left tv va)).length
      = np_searchsorted_left tv vb - np_searchsorted_left tv va := by
  simp only [List.length_take, List.length_drop]
  omega

lemma diffs_nonneg : ∀ (p : Int) (l : List Int), List.Sorted (· ≤ ·) (p :: l) →
    ∀ x ∈ List.zipWith (fun a b => a - b) l (p :: l), 0 ≤ x
  | _, [], _, x, hx => by simp at hx
  | p, q :: rest, hsort, x, hx => by
    obtain ⟨hp, hrest⟩ := List.sorted_cons.mp hsort
    simp only [List.zipWith_cons_cons] at hx
    rcases List.mem_cons.mp hx with h | h
    · have hq : p ≤ q := hp q (by simp)
      omega
    · exact diffs_nonneg q rest hrest x h

lemma diffs_sum : ∀ (p : Int) (l : List Int),
    (List.zipWith (fun a b => a - b) l (p :: l)).sum = l.getLastD p - p
  | _, [] => by simp
  | p, q :: rest => by
    simp only [List.zipWith_cons_cons, List.sum_cons, List.getLastD_cons]
    rw [diffs_sum q rest]
    ring

lemma diffs_length (p : Int) (l : List Int) :
    (List.zipWith (fun a b => a - b) l (p :: l)).length = l.length := by
  simp only [List.length_zipWith, List.length_cons]
  omega

/-! The breakpoint loop of `get_cumulative_distribution`. -/

lemma maxLe_all_gt (e : Int) : ∀ (p : Int) (l : List Int), (∀ x ∈ l, e < x) →
    maxLe e p l = p
  | _, [], _ => rfl
  | p, x :: rest, h => by
    have hx : e < x := h x (by simp)
    rw [maxLe, if_neg (by omega)]
    exact maxLe_all_gt e p rest (fun y hy => h y (by simp [hy]))

lemma maxLe_eq (e : Int) : ∀ (l : List Int) (p : Int), List.Sorted (· ≤ ·) l →
    (∀ x ∈ l, p ≤ x) → p ≤ e → (e = p ∨ e ∈ l) → maxLe e p l = e
  | [], p, _, _, _, hmem => by
    rcases hmem with h | h
    · rw [maxLe, h]
    · simp at h
  | x :: rest, p, hsort, hall, hpe, hmem => by
    obtain ⟨hx, hrest⟩ := List.sorted_cons.mp hsort
    rcases hmem with h | h
    · -- e = p, and every element of x :: rest is ≥ p, so only copies of p are ≤ e
      subst h
      by_cases hxe : x ≤ e
      · have hxp : x = e := le_antisymm hxe (hall x (by simp))
        rw [maxLe, if_pos hxe]
        exact maxLe_eq e rest (max e x) hrest
          (fun y hy => le_trans (by omega : max e x ≤ x) (hx y hy))
          (by omega) (Or.inl (by omega))
      · rw [maxLe, if_neg hxe]
        exact maxLe_eq e rest e hrest
          (fun y hy => le_trans (hall x (by simp)) (hx y hy)) le_rfl
          (Or.inl rfl)
    · rcases List.mem_cons.mp h with h | h
      · -- e is the head
        have hxe : x ≤ e := le_of_eq h.symm
        rw [maxLe, if_pos hxe]
        have hmax : max p x = x := max_eq_right (hall x (by simp))
        rw [hmax]
        exact maxLe_eq e rest x hrest hx hxe (Or.inl h)
      · -- e is in the tail, so x ≤ e
        have hxe : x ≤ e := hx e h
        rw [maxLe, if_pos hxe]
        have hmax : max p x = x := max_eq_right (hall x (by simp))
        rw [hmax]
        exact maxLe_eq e rest x hrest hx hxe (Or.inr h)

lemma map_sub_sum_shift : ∀ (l : List Int) (p w : Int),
    (l.map (fun x => x - p)).sum = (l.map (fun x => x - w)).sum + l.length * (w - p)
  | [], _, _ => by simp
  | q :: rest, p, w => by
    simp only [List.map_cons, List.sum_cons, List.length_cons]
    rw [map_sub_sum_shift rest p w]
    push_cast
    ring

lemma cdf_loop_nil (ewt : Option Int) (ie : Int) (prev : Option Int) (tot : Int)
    (pts : List (ℚ × ℚ)) : cdf_loop ewt ie [] prev tot pts = (pts, tot) := rfl

lemma cdf_loop_cons_none (ewt : Option Int) (ie w tot : Int) (rest : List Int)
    (pts : List (ℚ × ℚ)) :
    cdf_loop ewt ie (w :: rest) none tot pts =
      cdf_loop ewt ie rest (some w) tot (pts ++ [((w : ℚ) / 60, (tot : ℚ) / (ie : ℚ))]) := by
  simp [cdf_loop]

lemma cdf_loop_cons_act (e ie p w tot : Int) (rest : List Int) (pts : List (ℚ × ℚ))
    (hpw : p < w) :
    cdf_loop (some e) ie (w :: rest) (some p) tot pts =
      cdf_loop (some e) ie rest (some w)
        (tot + (w - p) * (if w ≤ e then ((w :: rest).length : Int) - 2
          else ((w :: rest).length : Int)))
        (pts ++ [((w : ℚ) / 60,
          ((tot + (w - p) * (if w ≤ e then ((w :: rest).length : Int) - 2
            else ((w :: rest).length : Int)) : Int) : ℚ) / (ie : ℚ))]) := by
  simp [cdf_loop, hpw]

lemma cdf_loop_cons_act_gen (ewt : Option Int) (ie p w tot : Int) (rest : List Int)
    (pts : List (ℚ × ℚ)) (hpw : p < w) :
    cdf_loop ewt ie (w :: rest) (some p) tot pts =
      cdf_loop ewt ie rest (some w)
        (tot + (w - p) * (match ewt with
          | some e => if w ≤ e then ((w :: rest).length : Int) - 2
            else ((w :: rest).length : Int)
          | none => ((w :: rest).length : Int)))
        (pts ++ [((w : ℚ) / 60,
          ((tot + (w - p) * (match ewt with
            | some e => if w ≤ e then ((w :: rest).length : Int) - 2
              else ((w :: rest).length : Int)
            | none => ((w :: rest).length : Int)) : Int) : ℚ) / (ie : ℚ))]) := by
  cases ewt <;> simp [cdf_loop, hpw]

lemma cdf_loop_cons_skip (ewt : Option Int) (ie p w tot : Int) (rest : List Int)
    (pts : List (ℚ × ℚ)) (hpw : ¬ p < w) :
    cdf_loop ewt ie (w :: rest) (some p) tot pts =
      cdf_loop ewt ie rest (some p) tot pts := by
  simp [cdf_loop, hpw]

lemma cdf_loop_points_append (ewt : Option Int) (ie : Int) :
    ∀ (l : List Int) (prev : Option Int) (tot : Int) (pts : List (ℚ × ℚ)),
      (cdf_loop ewt ie l prev tot pts).1
        = pts ++ (cdf_loop ewt ie l prev tot []).1
  | [], prev, tot, pts => by simp [cdf_loop_nil]
  | w :: rest, none, tot, pts => by
    rw [cdf_loop_cons_none, cdf_loop_cons_none,
      cdf_loop_points_append ewt ie rest (some w) tot
        (pts ++ [((w : ℚ) / 60, (tot : ℚ) / (ie : ℚ))]),
      cdf_loop_points_append ewt ie rest (some w) tot
        ([] ++ [((w : ℚ) / 60, (tot : ℚ) / (ie : ℚ))])]
    simp
  | w :: rest, some p, tot, pts => by
    by_cases hpw : p < w
    · rw [cdf_loop_cons_act_gen ewt ie p w tot rest pts hpw,
        cdf_loop_cons_act_gen ewt ie p w tot rest [] hpw,
        cdf_loop_points_append ewt ie rest, cdf_loop_points_append ewt ie rest (some w) _ ([] ++ _)]
      simp
    · rw [cdf_loop_cons_skip ewt ie p w tot rest pts hpw,
        cdf_loop_cons_skip ewt ie p w tot rest [] hpw]
      exact cdf_loop_points_append ewt ie rest (some p) tot pts

end WaitTimes

namespace WaitTimes

lemma cdf_loop_tot (e ie : Int) :
    ∀ (l : List Int) (p tot : Int) (pts : List (ℚ × ℚ)),
      List.Sorted (· ≤ ·) l → (∀ x ∈ l, p ≤ x) →
      (cdf_loop (some e) ie l (some p) tot pts).2
        = tot + (l.map (fun x => x - p)).sum - 2 * (maxLe e p l - p)
  | [], p, tot, pts, _, _ => by simp [cdf_loop_nil, maxLe]
  | w :: rest, p, tot, pts, hsort, hall => by
    obtain ⟨hw, hrest⟩ := List.sorted_cons.mp hsort
    have hp : p ≤ w := hall w (by simp)
    by_cases hpw : p < w
    · rw [cdf_loop_cons_act e ie p w tot rest pts hpw]
      rw [cdf_loop_tot e ie rest w _ _ hrest hw]
      simp only [List.map_cons, List.sum_cons]
      rw [map_sub_sum_shift rest p w]
      by_cases hwe : w ≤ e
      · have hmax : maxLe e p (w :: rest) = maxLe e w rest := by
          simp [maxLe, hwe, max_eq_right hp]
        rw [hmax, if_pos hwe]
        simp only [List.length_cons]
        push_cast
        ring
      · have hgt : ∀ x ∈ w :: rest, e < x := by
          intro x hx
          rcases List.mem_cons.mp hx with h | h
          · omega
          · have := hw x h; omega
        have hmax1 : maxLe e p (w :: rest) = p := maxLe_all_gt e p _ hgt
        have hmax2 : maxLe e w rest = w :=
          maxLe_all_gt e w rest (fun x hx => hgt x (by simp [hx]))
        rw [hmax1, hmax2, if_neg hwe]
        simp only [List.length_cons]
        push_cast
        ring
    · have hwp : w = p := by omega
      rw [cdf_loop_cons_skip (some e) ie p w tot rest pts hpw]
      rw [cdf_loop_tot e ie rest p tot pts hrest
        (fun x hx => le_trans hp (hw x hx))]
      have hmax : maxLe e p (w :: rest) = maxLe e p rest := by
        subst hwp
        by_cases hpe : w ≤ e <;> simp [maxLe, hpe, max_self]
      rw [hmax]
      simp only [List.map_cons, List.sum_cons, hwp]
      ring

lemma cdf_loop_last (e ie : Int) :
    ∀ (l : List Int) (p tot : Int) (pts : List (ℚ × ℚ)),
      List.Sorted (· ≤ ·) l → (∀ x ∈ l, p ≤ x) →
      ((cdf_loop (some e) ie l (some p) tot pts).1 = pts
          ∧ (cdf_loop (some e) ie l (some p) tot pts).2 = tot)
        ∨ (∃ q, (cdf_loop (some e) ie l (some p) tot pts).1.getLast? = some q
            ∧ q.2 = ((cdf_loop (some e) ie l (some p) tot pts).2 : ℚ) / (ie : ℚ))
  | [], p, tot, pts, _, _ => by simp [cdf_loop_nil]
  | w :: rest, p, tot, pts, hsort, hall => by
    obtain ⟨hw, hrest⟩ := List.sorted_cons.mp hsort
    have hp : p ≤ w := hall w (by simp)
    by_cases hpw : p < w
    · rw [cdf_loop_cons_act e ie p w tot rest pts hpw]
      rcases cdf_loop_last e ie rest w
          (tot + (w - p) * (if w ≤ e then ((w :: rest).length : Int) - 2
            else ((w :: rest).length : Int)))
          (pts ++ [((w : ℚ) / 60,
            ((tot + (w - p) * (if w ≤ e then ((w :: rest).length : Int) - 2
              else ((w :: rest).length : Int)) : Int) : ℚ) / (ie : ℚ))])
          hrest hw with ⟨h1, h2⟩ | ⟨q, hq1, hq2⟩
      · right
        refine ⟨((w : ℚ) / 60,
            ((tot + (w - p) * (if w ≤ e then ((w :: rest).length : Int) - 2
              else ((w :: rest).length : Int)) : Int) : ℚ) / (ie : ℚ)), ?_, ?_⟩
        · rw [h1]
          exact List.getLast?_concat _
        · rw [h2]
      · right
        exact ⟨q, hq1, hq2⟩
    · rw [cdf_loop_cons_skip (some e) ie p w tot rest pts hpw]
      exact cdf_loop_last e ie rest p tot pts hrest
        (fun x hx => le_trans hp (hw x hx))

lemma cdf_loop_chain (e ie : Int) (hie : 0 < ie) :
    ∀ (l : List Int) (p tot : Int) (pts : List (ℚ × ℚ)),
      List.Sorted (· ≤ ·) l → (∀ x ∈ l, p ≤ x) →
      (p < e → 2 ≤ l.countP (fun x => decide (e ≤ x))) →
      List.Chain' cdf_point_mono pts →
      (∀ q, pts.getLast? = some q → q.1 = (p : ℚ) / 60 ∧ q.2 = (tot : ℚ) / (ie : ℚ)) →
      List.Chain' cdf_point_mono (cdf_loop (some e) ie l (some p) tot pts).1
  | [], p, tot, pts, _, _, _, hch, _ => by simpa [cdf_loop_nil] using hch
  | w :: rest, p, tot, pts, hsort, hall, hcnt, hch, hlast => by
    obtain ⟨hw, hrest⟩ := List.sorted_cons.mp hsort
    have hp : p ≤ w := hall w (by simp)
    have hieQ : (0 : ℚ) < (ie : ℚ) := by exact_mod_cast hie
    by_cases hpw : p < w
    · rw [cdf_loop_cons_act e ie p w tot rest pts hpw]
      have hnum : (0 : Int) ≤ (if w ≤ e then ((w :: rest).length : Int) - 2
          else ((w :: rest).length : Int)) := by
        by_cases hwe : w ≤ e
        · rw [if_pos hwe]
          have h2 := hcnt (lt_of_lt_of_le hpw hwe)
          have hlen := List.countP_le_length (fun x => decide (e ≤ x)) (l := w :: rest)
          have h2' : 2 ≤ (w :: rest).length := le_trans h2 hlen
          have : ((w :: rest).length : Int) ≥ 2 := by exact_mod_cast h2'
          omega
        · rw [if_neg hwe]
          positivity
      have htot_le : tot ≤ tot + (w - p) * (if w ≤ e then ((w :: rest).length : Int) - 2
          else ((w :: rest).length : Int)) := by
        nlinarith
      apply cdf_loop_chain e ie hie rest w _ _ hrest hw
      · intro hwe
        have h2 := hcnt (lt_trans hpw hwe)
        rw [List.countP_cons] at h2
        have hfalse : (decide (e ≤ w)) = false := by simp; omega
        rw [hfalse] at h2
        simpa using h2
      · apply List.Chain'.append hch (List.chain'_singleton _)
        intro x hx y hy
        simp only [List.head?_cons, Option.mem_def, Option.some_inj] at hy
        have hx' : pts.getLast? = some x := hx
        obtain ⟨hx1, hx2⟩ := hlast x hx'
        subst hy
        constructor
        · rw [hx1]
          show (p : ℚ) / 60 < (w : ℚ) / 60
          have hc : (p : ℚ) < (w : ℚ) := by exact_mod_cast hpw
          exact div_lt_div_of_pos_right hc (by norm_num)
        · rw [hx2]
          show (tot : ℚ) / (ie : ℚ) ≤ _
          have hc : (tot : ℚ) ≤ ((tot + (w - p) * (if w ≤ e then ((w :: rest).length : Int) - 2
              else ((w :: rest).length : Int)) : Int) : ℚ) := by exact_mod_cast htot_le
          exact div_le_div_of_nonneg_right hc hieQ.le
      · intro q hq
        rw [List.getLast?_concat] at hq
        cases hq
        exact ⟨rfl, rfl⟩
    · have hwp : w = p := by omega
      rw [cdf_loop_cons_skip (some e) ie p w tot rest pts hpw]
      apply cdf_loop_chain e ie hie rest p tot pts hrest
        (fun x hx => le_trans hp (hw x hx))
      · intro hpe
        have h2 := hcnt hpe
        rw [List.countP_cons] at h2
        have hfalse : (decide (e ≤ w)) = false := by simp; omega
        rw [hfalse] at h2
        simpa using h2
      · exact hch
      · exact hlast

end WaitTimes

namespace WaitTimes

lemma end_idx_lt (tv : List Int) (st et : Option Int) (htv : tv ≠ [])
    (hs : List.Sorted (· ≤ ·) tv)
    (hab : clip_start tv st < clip_end tv st et) :
    np_searchsorted_left tv (clip_end tv st et) < tv.length := by
  rcases Nat.lt_or_ge (np_searchsorted_left tv (clip_end tv st et)) tv.length with h | h
  · exact h
  · exfalso
    have hle := np_searchsorted_le_length tv (clip_end tv st et)
    have heq : np_searchsorted_left tv (clip_end tv st et) = tv.length := by omega
    have hall : ∀ x ∈ tv, x < clip_end tv st et :=
      (countP_eq_length_iff_all tv _).mp heq
    have hlast : tv.getLast htv < clip_end tv st et := hall _ (List.getLast_mem htv)
    rcases clip_end_cases tv st et with h | h
    · rw [np_max_eq_getLast tv htv hs] at h; omega
    · omega

lemma cdf_loop_full (wvs : List Int) (ev ie : Int) (hie : 0 < ie)
    (hmem_e : ev ∈ wvs) (hcnt2 : 2 ≤ wvs.countP (fun x => decide (ev ≤ x)))
    (w0 : Int) (hw0 : w0 ∈ wvs) (hmin : ∀ x ∈ wvs, w0 ≤ x)
    (hsum : (wvs.map (fun x => x - w0)).sum - 2 * (ev - w0) = ie) :
    (cdf_loop (some ev) ie (List.insertionSort (· ≤ ·) wvs) none 0 []).1 ≠ [] ∧
    (cdf_loop (some ev) ie (List.insertionSort (· ≤ ·) wvs) none 0 []).1.head?.map
      Prod.snd = some 0 ∧
    (cdf_loop (some ev) ie (List.insertionSort (· ≤ ·) wvs) none 0 []).1.getLast?.map
      Prod.snd = some 1 ∧
    List.Chain' cdf_point_mono
      (cdf_loop (some ev) ie (List.insertionSort (· ≤ ·) wvs) none 0 []).1 := by
  have hperm : List.Perm (List.insertionSort (· ≤ ·) wvs) wvs :=
    List.perm_insertionSort _ wvs
  have hsorted : List.Sorted (· ≤ ·) (List.insertionSort (· ≤ ·) wvs) :=
    List.sorted_insertionSort _ wvs
  cases hsw : List.insertionSort (· ≤ ·) wvs with
  | nil =>
    exfalso
    have := hperm.mem_iff.mpr hmem_e
    rw [hsw] at this
    simp at this
  | cons h0 rest =>
    rw [hsw] at hperm hsorted
    obtain ⟨hh0, hrest⟩ := List.sorted_cons.mp hsorted
    have hh0w0 : w0 = h0 := by
      have h1 : w0 ≤ h0 := hmin h0 (hperm.mem_iff.mp (by simp))
      have h2 : h0 ≤ w0 := by
        have hw0s : w0 ∈ h0 :: rest := hperm.mem_iff.mpr hw0
        rcases List.mem_cons.mp hw0s with h | h
        · omega
        · exact hh0 w0 h
      omega
    subst hh0w0
    have hallrest : ∀ x ∈ rest, w0 ≤ x := hh0
    have hieQ : ((ie : ℚ)) ≠ 0 := by
      have : (0 : ℚ) < (ie : ℚ) := by exact_mod_cast hie
      exact ne_of_gt this
    have hw0ev : w0 ≤ ev := hmin ev hmem_e
    have hev_in : ev = w0 ∨ ev ∈ rest := by
      have := hperm.mem_iff.mpr hmem_e
      rcases List.mem_cons.mp this with h | h
      · left; omega
      · right; exact h
    have hmaxLe : maxLe ev w0 rest = ev :=
      maxLe_eq ev rest w0 hrest hallrest hw0ev hev_in
    have hsum_rest : (rest.map (fun x => x - w0)).sum
        = (wvs.map (fun x => x - w0)).sum := by
      have hmapped := (hperm.map (fun x => x - w0)).sum_eq
      simp only [List.map_cons, List.sum_cons, sub_self, zero_add] at hmapped
      exact hmapped
    have htot : (cdf_loop (some ev) ie rest (some w0) 0
        ([] ++ [((w0 : ℚ) / 60, ((0 : Int) : ℚ) / (ie : ℚ))])).2 = ie := by
      rw [cdf_loop_tot ev ie rest w0 0 _ hrest hallrest, hmaxLe, hsum_rest]
      omega
    rw [cdf_loop_cons_none]
    have hpts_split := cdf_loop_points_append (some ev) ie rest (some w0) 0
      ([] ++ [((w0 : ℚ) / 60, ((0 : Int) : ℚ) / (ie : ℚ))])
    refine ⟨?_, ?_, ?_, ?_⟩
    · rw [hpts_split]
      simp
    · rw [hpts_split]
      simp
    · rcases cdf_loop_last ev ie rest w0 0
          ([] ++ [((w0 : ℚ) / 60, ((0 : Int) : ℚ) / (ie : ℚ))]) hrest hallrest
        with ⟨h1, h2⟩ | ⟨q, hq1, hq2⟩
      · exfalso
        rw [htot] at h2
        omega
      · rw [hq1]
        show some q.2 = some 1
        rw [hq2, htot, div_self hieQ]
    · apply cdf_loop_chain ev ie hie rest w0 0 _ hrest hallrest
      · intro hlt
        have hcntp : (List.insertionSort (· ≤ ·) wvs).countP (fun x => decide (ev ≤ x))
            = wvs.countP (fun x => decide (ev ≤ x)) := (List.perm_insertionSort _ wvs).countP_eq _
        rw [hsw, List.countP_cons] at hcntp
        have hfalse : (decide (ev ≤ w0)) = false := by simp; omega
        rw [hfalse] at hcntp
        simp only [Bool.false_eq_true, if_false, Nat.add_zero] at hcntp
        omega
      · simp
      · intro q hq
        simp only [List.nil_append, List.getLast?_singleton, Option.some_inj] at hq
        subst hq
        exact ⟨rfl, rfl⟩

end WaitTimes

namespace WaitTimes

lemma cdf_compute_some (s : WaitTimeStats) (ev : Int) (h1 : s.is_empty = false)
    (h2 : s.end_wait_time = some ev) :
    cdf_compute s = some (cdf_loop (some ev) (s.interval_end - s.interval_start)
      (List.insertionSort (· ≤ ·) (s.interval_headways ++ [ev, ev + s.end_elapsed_time] ++
        (if 0 < s.interval_headways.length then [(0 : Int)] else []))) none 0 []).1 := by
  simp only [cdf_compute, h1, h2, Bool.false_eq_true, if_false, decide_eq_true_eq]

end WaitTimes

namespace WaitTimes

lemma countP_tail_ge_two (hw : List Int) (ev ee : Int) (hee : 0 ≤ ee) (tail : List Int) :
    2 ≤ (hw ++ [ev, ev + ee] ++ tail).countP (fun x => decide (ev ≤ x)) := by
  rw [List.countP_append, List.countP_append]
  have hmid : List.countP (fun x => decide (ev ≤ x)) [ev, ev + ee] = 2 := by
    simp [List.countP_cons]
    omega
  omega

lemma cdf_master (tv : List Int) (st et : Option Int) (htv : tv ≠ [])
    (hs : List.Sorted (· ≤ ·) tv) (hne : (get_stats tv st et).is_empty = false) :
    ∃ pts, cdf_compute (get_stats tv st et) = some pts ∧ pts ≠ [] ∧
      pts.head?.map Prod.snd = some 0 ∧ pts.getLast?.map Prod.snd = some 1 ∧
      List.Chain' cdf_point_mono pts := by
  have hab : clip_start tv st < clip_end tv st et :=
    (get_stats_is_empty_false tv st et htv hs).mp hne
  have heI : np_searchsorted_left tv (clip_end tv st et) < tv.length :=
    end_idx_lt tv st et htv hs hab
  have hewt : (get_stats tv st et).end_wait_time
      = some (tv.getD (np_searchsorted_left tv (clip_end tv st et)) 0 - clip_end tv st et) := by
    rw [get_stats_end_wait_time tv st et htv hs, if_pos heI]
  have hev_nonneg : 0 ≤ tv.getD (np_searchsorted_left tv (clip_end tv st et)) 0
      - clip_end tv st et := by
    have hbe := sorted_le_get_countP tv hs (clip_end tv st et) _ heI le_rfl
    rw [List.getD_eq_getElem tv 0 heI]
    omega
  have hie_fields : (get_stats tv st et).interval_end - (get_stats tv st et).interval_start
      = clip_end tv st et - clip_start tv st := by
    rw [get_stats_interval_end tv st et htv hs, get_stats_interval_start tv st et htv hs]
  have hcc := cdf_compute_some (get_stats tv st et) _ hne hewt
  rw [hie_fields] at hcc
  by_cases hslt : np_searchsorted_left tv (clip_start tv st)
      < np_searchsorted_left tv (clip_end tv st et)
  · -- there is at least one arrival inside the interval
    have hslice_len : ((tv.drop (np_searchsorted_left tv (clip_start tv st))).take
        (np_searchsorted_left tv (clip_end tv st et)
          - np_searchsorted_left tv (clip_start tv st))).length
        = np_searchsorted_left tv (clip_end tv st et)
          - np_searchsorted_left tv (clip_start tv st) :=
      slice_length_eq tv _ _ (np_searchsorted_le_length tv _)
    have hslice_ne : (tv.drop (np_searchsorted_left tv (clip_start tv st))).take
        (np_searchsorted_left tv (clip_end tv st et)
          - np_searchsorted_left tv (clip_start tv st)) ≠ [] := by
      intro hcon
      rw [hcon] at hslice_len
      simp at hslice_len
      omega
    have hbounds := slice_elem_bounds tv hs (clip_start tv st) (clip_end tv st et)
    have hsl_sorted := slice_sorted tv hs (np_searchsorted_left tv (clip_start tv st))
      (np_searchsorted_left tv (clip_end tv st et) - np_searchsorted_left tv (clip_start tv st))
    have hsorted_cons : List.Sorted (· ≤ ·) (clip_start tv st ::
        (tv.drop (np_searchsorted_left tv (clip_start tv st))).take
          (np_searchsorted_left tv (clip_end tv st et)
            - np_searchsorted_left tv (clip_start tv st))) :=
      List.sorted_cons.mpr ⟨fun x hx => (hbounds x hx).1, hsl_sorted⟩
    have hw_nonneg := diffs_nonneg (clip_start tv st) _ hsorted_cons
    have hw_sum := diffs_sum (clip_start tv st)
      ((tv.drop (np_searchsorted_left tv (clip_start tv st))).take
        (np_searchsorted_left tv (clip_end tv st et)
          - np_searchsorted_left tv (clip_start tv st)))
    have hlastD := getLastD_irrel _ hslice_ne (0 : Int) (clip_start tv st)
    have hlast_mem := getLastD_mem _ hslice_ne (0 : Int)
    have hlast_lt := (hbounds _ hlast_mem).2
    have hlast_ge := (hbounds _ hlast_mem).1
    have hw_len := diffs_length (clip_start tv st)
      ((tv.drop (np_searchsorted_left tv (clip_start tv st))).take
        (np_searchsorted_left tv (clip_end tv st et)
          - np_searchsorted_left tv (clip_start tv st)))
    have hhw : (get_stats tv st et).interval_headways
        = List.zipWith (fun a b => a - b)
          ((tv.drop (np_searchsorted_left tv (clip_start tv st))).take
            (np_searchsorted_left tv (clip_end tv st et)
              - np_searchsorted_left tv (clip_start tv st)))
          (clip_start tv st ::
            (tv.drop (np_searchsorted_left tv (clip_start tv st))).take
              (np_searchsorted_left tv (clip_end tv st et)
                - np_searchsorted_left tv (clip_start tv st))) := by
      rw [get_stats_interval_headways tv st et htv hs, if_pos hslt]
    have hee : (get_stats tv st et).end_elapsed_time
        = clip_end tv st et -
          ((tv.drop (np_searchsorted_left tv (clip_start tv st))).take
            (np_searchsorted_left tv (clip_end tv st et)
              - np_searchsorted_left tv (clip_start tv st))).getLastD 0 := by
      rw [get_stats_end_elapsed_time tv st et htv hs, if_pos hslt]
    rw [hhw, hee] at hcc
    have hw_len_pos : 0 < (List.zipWith (fun a b => a - b)
        ((tv.drop (np_searchsorted_left tv (clip_start tv st))).take
          (np_searchsorted_left tv (clip_end tv st et)
            - np_searchsorted_left tv (clip_start tv st)))
        (clip_start tv st ::
          (tv.drop (np_searchsorted_left tv (clip_start tv st))).take
            (np_searchsorted_left tv (clip_end tv st et)
              - np_searchsorted_left tv (clip_start tv st)))).length := by
      rw [hw_len, hslice_len]
      omega
    rw [if_pos hw_len_pos] at hcc
    refine ⟨_, hcc, ?_⟩
    apply cdf_loop_full
    · omega
    · simp
    · exact countP_tail_ge_two _ _ _ (by omega) _
    · show (0 : Int) ∈ _
      simp
    · intro x hx
      rcases List.mem_append.mp hx with hx | hx
      · rcases List.mem_append.mp hx with hx | hx
        · exact hw_nonneg x hx
        · rcases List.mem_cons.mp hx with hx | hx
          · omega
          · rcases List.mem_cons.mp hx with hx | hx
            · omega
            · simp at hx
      · simp at hx
        omega
    · have hsimp : ∀ l : List Int, List.map (fun x => x - 0) l = l := by
        intro l
        simp
      rw [hsimp, List.sum_append, List.sum_append]
      simp only [List.sum_cons, List.sum_nil]
      rw [hw_sum, ← hlastD]
      omega
  · -- no arrival strictly inside the interval
    have hhw : (get_stats tv st et).interval_headways = [] := by
      rw [get_stats_interval_headways tv st et htv hs, if_neg hslt]
    have hee : (get_stats tv st et).end_elapsed_time
        = clip_end tv st et - clip_start tv st := by
      rw [get_stats_end_elapsed_time tv st et htv hs, if_neg hslt]
    rw [hhw, hee] at hcc
    rw [if_neg (by simp)] at hcc
    refine ⟨_, hcc, ?_⟩
    apply cdf_loop_full
    · omega
    · simp
    · exact countP_tail_ge_two [] _ _ (by omega) []
    · show (tv.getD (np_searchsorted_left tv (clip_end tv st et)) 0
        - clip_end tv st et) ∈ _
      simp
    · intro x hx
      simp only [List.nil_append, List.append_nil] at hx
      rcases List.mem_cons.mp hx with hx | hx
      · omega
      · rcases List.mem_cons.mp hx with hx | hx
        · omega
        · simp at hx
    · simp only [List.nil_append, List.append_nil, sub_zero, List.map_cons, List.map_nil,
        List.sum_cons, List.sum_nil]
      omega

end WaitTimes

namespace WaitTimes

lemma get_cdf_ok (tv : List Int) (st et : Option Int) (htv : tv ≠ [])
    (hs : List.Sorted (· ≤ ·) tv) (hne : (get_stats tv st et).is_empty = false) :
    ∃ pts, get_cumulative_distribution (get_stats tv st et) = Except.ok (some pts) ∧
      pts ≠ [] ∧ pts.head?.map Prod.snd = some 0 ∧ pts.getLast?.map Prod.snd = some 1 ∧
      List.Chain' cdf_point_mono pts := by
  obtain ⟨pts, hcc, hne', hhead, hlast, hchain⟩ := cdf_master tv st et htv hs hne
  refine ⟨pts, ?_, hne', hhead, hlast, hchain⟩
  simp only [get_cumulative_distribution, hcc]
  rw [if_neg]
  push_neg
  exact ⟨hlast, hhead⟩

lemma inside_interval_nonempty (tv : List Int) (stv etv : Int) (htv : tv ≠ [])
    (hs : List.Sorted (· ≤ ·) tv) (h1 : np_min tv ≤ stv) (h2 : etv ≤ np_max tv)
    (h3 : stv < etv) :
    (get_stats tv (some stv) (some etv)).is_empty = false := by
  rw [get_stats_is_empty tv _ _ htv hs]
  have ha : clip_start tv (some stv) = stv := max_eq_right h1
  have hb : clip_end tv (some stv) (some etv) = etv := by
    show max (min (np_max tv) etv) (clip_start tv (some stv)) = etv
    rw [ha, min_eq_right h2]
    exact max_eq_left (le_of_lt h3)
  rw [ha, hb]
  simp
  omega

lemma histogram_loop_eq (pts : List (ℚ × ℚ)) :
    ∀ (l : List ℚ) (pv : ℚ) (acc : List ℚ),
      histogram_loop pts l (some pv) acc
        = acc ++ List.zipWith (fun b c => prob_less_of pts b - c) l
            (pv :: l.map (prob_less_of pts))
  | [], pv, acc => by simp [histogram_loop]
  | b :: rest, pv, acc => by
    rw [histogram_loop]
    rw [histogram_loop_eq pts rest (prob_less_of pts b) _]
    simp [List.zipWith_cons_cons]

lemma histogram_eq (pts : List (ℚ × ℚ)) (bins : List ℚ) (hbins : bins ≠ []) :
    histogram_loop pts bins none []
      = List.zipWith (fun u lo => prob_less_of pts u - prob_less_of pts lo)
          bins.tail bins := by
  cases bins with
  | nil => exact absurd rfl hbins
  | cons b rest =>
    rw [histogram_loop]
    rw [histogram_loop_eq pts rest (prob_less_of pts b) _]
    simp only [List.nil_append, List.tail_cons]
    have hmap : (prob_less_of pts b :: rest.map (prob_less_of pts))
        = (b :: rest).map (prob_less_of pts) := by simp
    rw [hmap, List.zipWith_map_right]

lemma zip_sub_sum (f : ℚ → ℚ) : ∀ (b : ℚ) (l : List ℚ),
    (List.zipWith (fun u lo => f u - f lo) l (b :: l)).sum = f (l.getLastD b) - f b
  | _, [] => by simp
  | b, q :: rest => by
    simp only [List.zipWith_cons_cons, List.sum_cons, List.getLastD_cons]
    rw [zip_sub_sum f q rest]
    ring

lemma zip_sub_length (f : ℚ → ℚ → ℚ) (b : ℚ) (l : List ℚ) :
    (List.zipWith f l (b :: l)).length = l.length := by
  simp only [List.length_zipWith, List.length_cons]
  omega

lemma get_cache_path_ok_implies (data_dir agency_id date_str stat_id : String)
    (sts ets : Option String) (version : String) (path : String)
    (h : get_cache_path data_dir agency_id date_str stat_id sts ets version
      = Except.ok path) :
    matches_id_pattern agency_id = true ∧ matches_id_pattern date_str = true ∧
    matches_id_pattern version = true ∧ matches_id_pattern stat_id = true ∧
    ∃ trp, get_time_range_path sts ets = some trp ∧
      matches_time_range_pattern trp = true := by
  rw [get_cache_path] at h
  cases htrp : get_time_range_path sts ets with
  | none =>
    simp only [htrp] at h
    exact Except.noConfusion h
  | some trp =>
    simp only [htrp] at h
    split_ifs at h with h1 h2 h3 h4 h5 <;> try exact Except.noConfusion h
    refine ⟨?_, ?_, ?_, ?_, trp, rfl, ?_⟩
    · cases hb : matches_id_pattern agency_id
      · exact absurd hb h1
      · rfl
    · cases hb : matches_id_pattern date_str
      · exact absurd hb h2
      · rfl
    · cases hb : matches_id_pattern version
      · exact absurd hb h3
      · rfl
    · cases hb : matches_id_pattern stat_id
      · exact absurd hb h4
      · rfl
    · cases hb : matches_time_range_pattern trp
      · exact absurd hb h5
      · rfl

end WaitTimes

namespace WaitTimes

/-- C1: for every sorted non-empty timestamp sequence whose statistics object is
not marked empty, `get_cumulative_distribution` returns plain CDF points whose
first probability is exactly 0 and whose last probability is exactly 1, so the
`AssertionError` branch (`Except.error`) is unreachable. -/
theorem C1_cdf_boundary_assertion_unreachable (tv : List Int) (st et : Option Int)
    (htv : tv ≠ []) (hs : List.Sorted (· ≤ ·) tv)
    (hne : (get_stats tv st et).is_empty = false) :
    ∃ pts, get_cumulative_distribution (get_stats tv st et) = Except.ok (some pts) ∧
      pts.head?.map Prod.snd = some 0 ∧ pts.getLast?.map Prod.snd = some 1 := by
  obtain ⟨pts, h1, _, h2, h3, _⟩ := get_cdf_ok tv st et htv hs hne
  exact ⟨pts, h1, h2, h3⟩

/-- C1 witness at timestamps `[0, 5, 100]`, interval `[0, 20]`. -/
theorem C1_cdf_boundary_assertion_unreachable_witness :
    ∃ pts, get_cumulative_distribution (get_stats [0, 5, 100] (some 0) (some 20))
        = Except.ok (some pts) ∧
      pts.head?.map Prod.snd = some 0 ∧ pts.getLast?.map Prod.snd = some 1 :=
  C1_cdf_boundary_assertion_unreachable [0, 5, 100] (some 0) (some 20)
    (by decide) (by decide) (by decide)

/-- C2: for every sorted non-empty timestamp sequence and interval fully inside
its range, the emitted CDF points are non-decreasing in both coordinates: wait
times strictly increase and cumulative probabilities never decrease. -/
theorem C2_cdf_monotone (tv : List Int) (stv etv : Int) (htv : tv ≠ [])
    (hs : List.Sorted (· ≤ ·) tv) (h1 : np_min tv ≤ stv) (h2 : etv ≤ np_max tv)
    (h3 : stv < etv) :
    ∃ pts, get_cumulative_distribution (get_stats tv (some stv) (some etv))
        = Except.ok (some pts) ∧ List.Chain' cdf_point_mono pts := by
  have hne := inside_interval_nonempty tv stv etv htv hs h1 h2 h3
  obtain ⟨pts, hok, _, _, _, hchain⟩ := get_cdf_ok tv (some stv) (some etv) htv hs hne
  exact ⟨pts, hok, hchain⟩

/-- C2 witness at timestamps `[0, 5, 100]`, interval `[0, 20]`. -/
theorem C2_cdf_monotone_witness :
    ∃ pts, get_cumulative_distribution (get_stats [0, 5, 100] (some 0) (some 20))
        = Except.ok (some pts) ∧ List.Chain' cdf_point_mono pts :=
  C2_cdf_monotone [0, 5, 100] 0 20 (by decide) (by decide) (by decide) (by decide)
    (by decide)

/-- C3: `get_average` returns the sum of the triangular areas `h^2/2` of the
in-interval headways, plus the tail rectangle and triangle when `end_wait_time`
is defined, divided by the interval length and by 60; at timestamps
`[0, 600, 1200]` with requested interval `[0, 1800]` it returns exactly 5
minutes. -/
theorem C3_average_formula (tv : List Int) (st et : Option Int) (htv : tv ≠ [])
    (hs : List.Sorted (· ≤ ·) tv) (hne : (get_stats tv st et).is_empty = false) :
    get_average (get_stats tv st et) = some
      ((((get_stats tv st et).interval_headways.map (fun h => ((h : ℚ)) ^ 2)).sum / 2
        + (match (get_stats tv st et).end_wait_time with
           | some ewt => (ewt : ℚ) * ((get_stats tv st et).end_elapsed_time : ℚ)
               + (((get_stats tv st et).end_elapsed_time : ℚ)) ^ 2 / 2
           | none => 0))
        / (((get_stats tv st et).interval_end : ℚ)
            - ((get_stats tv st et).interval_start : ℚ)) / 60) ∧
    get_average (get_stats [0, 600, 1200] (some 0) (some 1800)) = some 5 := by
  constructor
  · simp only [get_average, hne, Bool.false_eq_true, if_false]
    by_cases hlen : 0 < (get_stats tv st et).interval_headways.length
    · rw [if_pos hlen]
    · rw [if_neg hlen]
      have hnil : (get_stats tv st et).interval_headways = [] := by
        cases hcase : (get_stats tv st et).interval_headways with
        | nil => rfl
        | cons x l =>
          rw [hcase] at hlen
          simp at hlen
      rw [hnil]
      simp
  · have hrec : get_stats [0, 600, 1200] (some 0) (some 1800)
        = { time_values := [0, 600, 1200], is_empty := false, interval_start := 0,
            interval_end := 1200, start_arrival_index := 0, end_arrival_index := 2,
            interval_time_values := [0, 600], interval_headways := [0, 600],
            end_elapsed_time := 600, end_wait_time := some 0 } := by decide
    rw [hrec]
    norm_num [get_average]

/-- C3 witness at the Scenario A input. -/
theorem C3_average_formula_witness :
    get_average (get_stats [0, 600, 1200] (some 0) (some 1800)) = some
      ((((get_stats [0, 600, 1200] (some 0) (some 1800)).interval_headways.map
          (fun h => ((h : ℚ)) ^ 2)).sum / 2
        + (match (get_stats [0, 600, 1200] (some 0) (some 1800)).end_wait_time with
           | some ewt => (ewt : ℚ)
                 * ((get_stats [0, 600, 1200] (some 0) (some 1800)).end_elapsed_time : ℚ)
               + (((get_stats [0, 600, 1200] (some 0) (some 1800)).end_elapsed_time : ℚ)) ^ 2 / 2
           | none => 0))
        / (((get_stats [0, 600, 1200] (some 0) (some 1800)).interval_end : ℚ)
            - ((get_stats [0, 600, 1200] (some 0) (some 1800)).interval_start : ℚ)) / 60) ∧
    get_average (get_stats [0, 600, 1200] (some 0) (some 1800)) = some 5 :=
  C3_average_formula [0, 600, 1200] (some 0) (some 1800) (by decide) (by decide) (by decide)

/-- C5 counterexample: for timestamps `[100, 300]` with requested interval
`[0, 100]`, `end_wait_time` is `0` (not `200`) and the CDF query returns the
"no data" result, contrary to the claim. -/
theorem C5_point_mass_counterexample :
    (get_stats [100, 300] (some 0) (some 100)).end_wait_time ≠ some 200 ∧
    get_cumulative_distribution (get_stats [100, 300] (some 0) (some 100))
      = Except.ok none := by
  exact ⟨by decide, rfl⟩

/-- C5 (amended): for timestamps `[100, 300]` with requested interval
`[0, 100]`, `interval_start` is clipped up to the first arrival 100, the
interval degenerates to `[100, 100]`, the object is empty with
`end_wait_time = 0` and `end_elapsed_time = 0`, and every distribution query
returns the "no data" result. -/
theorem C5_degenerate_interval_amended :
    (get_stats [100, 300] (some 0) (some 100)).interval_start = 100 ∧
    (get_stats [100, 300] (some 0) (some 100)).interval_end = 100 ∧
    (get_stats [100, 300] (some 0) (some 100)).end_wait_time = some 0 ∧
    (get_stats [100, 300] (some 0) (some 100)).end_elapsed_time = 0 ∧
    (get_stats [100, 300] (some 0) (some 100)).is_empty = true ∧
    get_cumulative_distribution (get_stats [100, 300] (some 0) (some 100))
      = Except.ok none ∧
    get_average (get_stats [100, 300] (some 0) (some 100)) = none := by
  exact ⟨by decide, by decide, by decide, by decide, by decide, rfl, rfl⟩

/-- C6: on a non-empty sorted sequence, if the base computation found no
arrival at or after the interval (`end_wait_time = none`) with a positive
`end_elapsed_time`, the constructor forces `end_elapsed_time` to 0 and
redefines `interval_end` to the last in-interval arrival; in all other cases
the initially clipped `interval_start`, `interval_end` and `end_elapsed_time`
are kept. -/
theorem C6_tail_revision_branch (tv : List Int) (st et : Option Int)
    (htv : tv ≠ []) (hs : List.Sorted (· ≤ ·) tv) :
    (((stats_base tv st et).end_wait_time = none ∧
        0 < (stats_base tv st et).end_elapsed_time) →
      (get_stats tv st et).end_elapsed_time = 0 ∧
      (get_stats tv st et).interval_end
        = (stats_base tv st et).interval_time_values.getLastD 0) ∧
    (¬((stats_base tv st et).end_wait_time = none ∧
        0 < (stats_base tv st et).end_elapsed_time) →
      (get_stats tv st et).interval_start = (stats_base tv st et).interval_start ∧
      (get_stats tv st et).interval_end = (stats_base tv st et).interval_end ∧
      (get_stats tv st et).end_elapsed_time = (stats_base tv st et).end_elapsed_time) := by
  constructor
  · intro hcon
    simp only [get_stats]
    rw [if_neg htv, if_pos hcon]
    exact ⟨rfl, rfl⟩
  · intro hcon
    simp only [get_stats]
    rw [if_neg htv, if_neg hcon]
    exact ⟨rfl, rfl, rfl⟩

/-- C6 witness at the Scenario A input. -/
theorem C6_tail_revision_branch_witness :
    (((stats_base [0, 600, 1200] (some 0) (some 1800)).end_wait_time = none ∧
        0 < (stats_base [0, 600, 1200] (some 0) (some 1800)).end_elapsed_time) →
      (get_stats [0, 600, 1200] (some 0) (some 1800)).end_elapsed_time = 0 ∧
      (get_stats [0, 600, 1200] (some 0) (some 1800)).interval_end
        = (stats_base [0, 600, 1200] (some 0) (some 1800)).interval_time_values.getLastD 0) ∧
    (¬(((stats_base [0, 600, 1200] (some 0) (some 1800)).end_wait_time = none ∧
        0 < (stats_base [0, 600, 1200] (some 0) (some 1800)).end_elapsed_time)) →
      (get_stats [0, 600, 1200] (some 0) (some 1800)).interval_start
        = (stats_base [0, 600, 1200] (some 0) (some 1800)).interval_start ∧
      (get_stats [0, 600, 1200] (some 0) (some 1800)).interval_end
        = (stats_base [0, 600, 1200] (some 0) (some 1800)).interval_end ∧
      (get_stats [0, 600, 1200] (some 0) (some 1800)).end_elapsed_time
        = (stats_base [0, 600, 1200] (some 0) (some 1800)).end_elapsed_time) :=
  C6_tail_revision_branch [0, 600, 1200] (some 0) (some 1800) (by decide) (by decide)

/-- C7: for the empty timestamp sequence, and for every input whose interval
collapses to zero width, every query operation returns the "no data" result
and never reaches a fault. -/
theorem C7_empty_no_data (tv : List Int) (st et : Option Int)
    (h : tv = [] ∨ (get_stats tv st et).is_empty = true) :
    (get_stats tv st et).is_empty = true ∧
    get_average (get_stats tv st et) = none ∧
    get_cumulative_distribution (get_stats tv st et) = Except.ok none ∧
    (∀ qs, get_quantiles (get_stats tv st et) qs = Except.ok none) ∧
    (∀ ps, get_percentiles (get_stats tv st et) ps = Except.ok none) ∧
    (∀ bins, get_histogram (get_stats tv st et) bins = Except.ok none) ∧
    (∀ w, get_probability_less_than (get_stats tv st et) w = Except.ok none) ∧
    (∀ w, get_probability_greater_than (get_stats tv st et) w = Except.ok none) ∧
    (∀ k, get_sampled_waits (get_stats tv st et) k = none) := by
  have hie : (get_stats tv st et).is_empty = true := by
    rcases h with h | h
    · subst h
      rfl
    · exact h
  have hcdf : cdf_compute (get_stats tv st et) = none := by
    simp only [cdf_compute, hie, if_true]
  have hgc : get_cumulative_distribution (get_stats tv st et) = Except.ok none := by
    simp only [get_cumulative_distribution, hcdf]
  have hq : ∀ qs, get_quantiles (get_stats tv st et) qs = Except.ok none := by
    intro qs
    simp only [get_quantiles, hgc]
  refine ⟨hie, ?_, hgc, hq, ?_, ?_, ?_, ?_, ?_⟩
  · simp only [get_average, hie, if_true]
  · intro ps
    exact hq _
  · intro bins
    simp only [get_histogram, hgc]
  · intro w
    simp only [get_probability_less_than, hgc]
  · intro w
    have : get_probability_less_than (get_stats tv st et) w = Except.ok none := by
      simp only [get_probability_less_than, hgc]
    simp only [get_probability_greater_than, this]
  · intro k
    simp only [get_sampled_waits, hie, if_true]

/-- C7 witness at the empty sequence. -/
theorem C7_empty_no_data_witness :
    (get_stats [] none none).is_empty = true ∧
    get_average (get_stats [] none none) = none ∧
    get_cumulative_distribution (get_stats [] none none) = Except.ok none ∧
    (∀ qs, get_quantiles (get_stats [] none none) qs = Except.ok none) ∧
    (∀ ps, get_percentiles (get_stats [] none none) ps = Except.ok none) ∧
    (∀ bins, get_histogram (get_stats [] none none) bins = Except.ok none) ∧
    (∀ w, get_probability_less_than (get_stats [] none none) w = Except.ok none) ∧
    (∀ w, get_probability_greater_than (get_stats [] none none) w = Except.ok none) ∧
    (∀ k, get_sampled_waits (get_stats [] none none) k = none) :=
  C7_empty_no_data [] none none (Or.inl rfl)

/-- C10: on a sorted non-empty sequence, a statistics object that is not
marked empty always has a defined, non-negative `end_wait_time`, with
`interval_end` at most the last timestamp; and the branch that would redefine
`interval_end` to the last in-interval arrival only runs when the object ends
up empty. -/
theorem C10_tail_always_defined (tv : List Int) (st et : Option Int)
    (htv : tv ≠ []) (hs : List.Sorted (· ≤ ·) tv) :
    ((get_stats tv st et).is_empty = false →
      ∃ ev, (get_stats tv st et).end_wait_time = some ev ∧ 0 ≤ ev ∧
        (get_stats tv st et).interval_end ≤ np_max tv) ∧
    (((stats_base tv st et).end_wait_time = none ∧
        0 < (stats_base tv st et).end_elapsed_time) →
      (get_stats tv st et).is_empty = true) := by
  constructor
  · intro hne
    have hab := (get_stats_is_empty_false tv st et htv hs).mp hne
    have heI := end_idx_lt tv st et htv hs hab
    refine ⟨tv.getD (np_searchsorted_left tv (clip_end tv st et)) 0 - clip_end tv st et,
      ?_, ?_, ?_⟩
    · rw [get_stats_end_wait_time tv st et htv hs, if_pos heI]
    · have hbe := sorted_le_get_countP tv hs (clip_end tv st et) _ heI le_rfl
      rw [List.getD_eq_getElem tv 0 heI]
      omega
    · rw [get_stats_interval_end tv st et htv hs]
      rcases clip_end_cases tv st et with h | h
      · exact h
      · omega
  · intro hcon
    exact absurd hcon (stats_branch_off tv st et htv hs)

/-- C10 witness at timestamps `[0, 5, 100]`, interval `[0, 20]`. -/
theorem C10_tail_always_defined_witness :
    ((get_stats [0, 5, 100] (some 0) (some 20)).is_empty = false →
      ∃ ev, (get_stats [0, 5, 100] (some 0) (some 20)).end_wait_time = some ev ∧ 0 ≤ ev ∧
        (get_stats [0, 5, 100] (some 0) (some 20)).interval_end ≤ np_max [0, 5, 100]) ∧
    (((stats_base [0, 5, 100] (some 0) (some 20)).end_wait_time = none ∧
        0 < (stats_base [0, 5, 100] (some 0) (some 20)).end_elapsed_time) →
      (get_stats [0, 5, 100] (some 0) (some 20)).is_empty = true) :=
  C10_tail_always_defined [0, 5, 100] (some 0) (some 20) (by decide) (by decide)

end WaitTimes

namespace WaitTimes

/-- C8: on a statistics object with a defined CDF, `get_histogram` returns one
value per adjacent pair of bin edges, each equal to
`probability_less_than(upper) - probability_less_than(lower)`; hence it has one
fewer entry than the edge list and its sum telescopes to
`probability_less_than(last edge) - probability_less_than(first edge)`. -/
theorem C8_histogram_adjacent_diffs (tv : List Int) (st et : Option Int)
    (htv : tv ≠ []) (hs : List.Sorted (· ≤ ·) tv)
    (hne : (get_stats tv st et).is_empty = false) (bins : List ℚ) (hbins : bins ≠ []) :
    ∃ pts, get_cumulative_distribution (get_stats tv st et) = Except.ok (some pts) ∧
      get_histogram (get_stats tv st et) bins = Except.ok (some
        (List.zipWith (fun u lo => prob_less_of pts u - prob_less_of pts lo)
          bins.tail bins)) ∧
      (List.zipWith (fun u lo => prob_less_of pts u - prob_less_of pts lo)
        bins.tail bins).length = bins.length - 1 ∧
      (List.zipWith (fun u lo => prob_less_of pts u - prob_less_of pts lo)
        bins.tail bins).sum
        = prob_less_of pts (bins.getLastD 0) - prob_less_of pts (bins.headD 0) := by
  obtain ⟨pts, hok, _, _, _, _⟩ := get_cdf_ok tv st et htv hs hne
  refine ⟨pts, hok, ?_, ?_, ?_⟩
  · simp only [get_histogram, hok]
    rw [histogram_eq pts bins hbins]
  · cases bins with
    | nil => exact absurd rfl hbins
    | cons b rest =>
      simp only [List.tail_cons, List.length_cons]
      rw [zip_sub_length]
      omega
  · cases bins with
    | nil => exact absurd rfl hbins
    | cons b rest =>
      simp only [List.tail_cons, List.getLastD_cons, List.headD_cons]
      exact zip_sub_sum (prob_less_of pts) b rest

/-- C8 witness at timestamps `[0, 5, 100]`, interval `[0, 20]`, bin edges
`[0, 1/12, 1, 2]` minutes. -/
theorem C8_histogram_adjacent_diffs_witness :
    ∃ pts, get_cumulative_distribution (get_stats [0, 5, 100] (some 0) (some 20))
        = Except.ok (some pts) ∧
      get_histogram (get_stats [0, 5, 100] (some 0) (some 20)) [0, 1/12, 1, 2]
        = Except.ok (some
        (List.zipWith (fun u lo => prob_less_of pts u - prob_less_of pts lo)
          ([0, 1/12, 1, 2] : List ℚ).tail [0, 1/12, 1, 2])) ∧
      (List.zipWith (fun u lo => prob_less_of pts u - prob_less_of pts lo)
        ([0, 1/12, 1, 2] : List ℚ).tail [0, 1/12, 1, 2]).length
        = ([0, 1/12, 1, 2] : List ℚ).length - 1 ∧
      (List.zipWith (fun u lo => prob_less_of pts u - prob_less_of pts lo)
        ([0, 1/12, 1, 2] : List ℚ).tail [0, 1/12, 1, 2]).sum
        = prob_less_of pts (([0, 1/12, 1, 2] : List ℚ).getLastD 0)
          - prob_less_of pts (([0, 1/12, 1, 2] : List ℚ).headD 0) :=
  C8_histogram_adjacent_diffs [0, 5, 100] (some 0) (some 20) (by decide) (by decide)
    (by decide) [0, 1/12, 1, 2] (by decide)

/-- C9: the cached-retrieval entry point validates `agency_id`, the date
string, `version`, `stat_id` and the time-range suffix against the restrictive
identifier patterns inside `get_cache_path`, before any file-system or network
action is emitted; in particular an `agency_id` containing `'/'` always
produces an invalid-argument fault with no I/O. -/
theorem C9_retrieval_validates_before_io (data_dir s3_bucket agency_id date_str
    date_path stat_id : String) (sts ets : Option String) (version : String) :
    ((matches_id_pattern agency_id = false ∨ matches_id_pattern date_str = false ∨
      matches_id_pattern version = false ∨ matches_id_pattern stat_id = false ∨
      matches_time_range_pattern ((get_time_range_path sts ets).getD "") = false) →
      ∃ msg, get_cached_wait_times_actions data_dir s3_bucket agency_id date_str
        date_path stat_id sts ets version = Except.error msg) ∧
    ('/' ∈ agency_id.toList →
      ∃ msg, get_cached_wait_times_actions data_dir s3_bucket agency_id date_str
        date_path stat_id sts ets version = Except.error msg) := by
  have hmain : (matches_id_pattern agency_id = false ∨ matches_id_pattern date_str = false ∨
      matches_id_pattern version = false ∨ matches_id_pattern stat_id = false ∨
      matches_time_range_pattern ((get_time_range_path sts ets).getD "") = false) →
      ∃ msg, get_cached_wait_times_actions data_dir s3_bucket agency_id date_str
        date_path stat_id sts ets version = Except.error msg := by
    intro hfail
    cases hres : get_cache_path data_dir agency_id date_str stat_id sts ets version with
    | error msg =>
      refine ⟨msg, ?_⟩
      simp only [get_cached_wait_times_actions, hres]
    | ok path =>
      exfalso
      obtain ⟨h1, h2, h3, h4, trp, htrp, h5⟩ :=
        get_cache_path_ok_implies data_dir agency_id date_str stat_id sts ets version
          path hres
      rcases hfail with h | h | h | h | h
      · rw [h1] at h
        exact Bool.noConfusion h
      · rw [h2] at h
        exact Bool.noConfusion h
      · rw [h3] at h
        exact Bool.noConfusion h
      · rw [h4] at h
        exact Bool.noConfusion h
      · rw [htrp] at h
        simp only [Option.getD_some] at h
        rw [h5] at h
        exact Bool.noConfusion h
  constructor
  · exact hmain
  · intro hsl
    apply hmain
    left
    unfold matches_id_pattern
    have hall : agency_id.toList.all (fun c => is_word_char c || c = '-') = false := by
      rw [List.all_eq_false]
      exact ⟨'/', hsl, by decide⟩
    rw [hall, Bool.and_false]

/-- C9 witness: an agency id containing a slash. -/
theorem C9_retrieval_validates_before_io_witness :
    ((matches_id_pattern "sf/muni" = false ∨ matches_id_pattern "2020-01-01" = false ∨
      matches_id_pattern "v1b" = false ∨ matches_id_pattern "median" = false ∨
      matches_time_range_pattern ((get_time_range_path none none).getD "") = false) →
      ∃ msg, get_cached_wait_times_actions "data" "bucket" "sf/muni" "2020-01-01"
        "2020/01/01" "median" none none "v1b" = Except.error msg) ∧
    ('/' ∈ "sf/muni".toList →
      ∃ msg, get_cached_wait_times_actions "data" "bucket" "sf/muni" "2020-01-01"
        "2020/01/01" "median" none none "v1b" = Except.error msg) :=
  C9_retrieval_validates_before_io "data" "bucket" "sf/muni" "2020-01-01" "2020/01/01"
    "median" none none "v1b"

end WaitTimes

namespace WaitTimes

lemma headD_eq_getElem {α : Type} (l : List α) (d0 : α) (h : 0 < l.length) :
    l.headD d0 = l[0] := by
  cases l with
  | nil => simp at h
  | cons x rest => rfl

lemma getLastD_eq_getElem {α : Type} (l : List α) (d0 : α) (h : 0 < l.length) :
    l.getLastD d0 = l[l.length - 1] := by
  cases l with
  | nil => simp at h
  | cons x rest =>
    rw [List.getLastD_eq_getLast?, List.getLast?_eq_getLast _ (by simp)]
    simp [List.getLast_eq_getElem]

lemma interp_roundtrip (d r : List ℚ) (w p : ℚ) (ei : ℕ)
    (hlen : r.length = d.length)
    (hdpw : List.Pairwise (· < ·) d) (hrpw : List.Pairwise (· ≤ ·) r)
    (heidef : ei = np_searchsorted_left d w)
    (hei_pos : 1 ≤ ei) (hei_lt : ei < d.length)
    (hflat : r.getD (ei - 1) 0 < r.getD ei 0)
    (hp : p = r.getD (ei - 1) 0 + (w - d.getD (ei - 1) 0)
      / (d.getD ei 0 - d.getD (ei - 1) 0) * (r.getD ei 0 - r.getD (ei - 1) 0)) :
    np_searchsorted_left r p = ei ∧
    d.getD (ei - 1) 0 + (p - r.getD (ei - 1) 0) / (r.getD ei 0 - r.getD (ei - 1) 0)
      * (d.getD ei 0 - d.getD (ei - 1) 0) = w := by
  have hsi_lt : ei - 1 < d.length := by omega
  have hr_si_lt : ei - 1 < r.length := by omega
  have hr_ei_lt : ei < r.length := by omega
  have hdsorted : List.Sorted (· ≤ ·) d := hdpw.imp (fun h => le_of_lt h)
  have hrsorted : List.Sorted (· ≤ ·) r := hrpw
  rw [List.getD_eq_getElem r 0 hr_si_lt, List.getD_eq_getElem r 0 hr_ei_lt] at hflat
  rw [List.getD_eq_getElem d 0 hsi_lt, List.getD_eq_getElem d 0 hei_lt,
      List.getD_eq_getElem r 0 hr_si_lt, List.getD_eq_getElem r 0 hr_ei_lt] at hp
  rw [List.getD_eq_getElem d 0 hsi_lt, List.getD_eq_getElem d 0 hei_lt,
      List.getD_eq_getElem r 0 hr_si_lt, List.getD_eq_getElem r 0 hr_ei_lt]
  have hd_si_lt_w : d[ei - 1] < w :=
    (sorted_countP_iff d hdsorted w _ hsi_lt).mpr (by omega)
  have hw_le_d_ei : w ≤ d[ei] := by
    by_contra hcon
    push_neg at hcon
    have := (sorted_countP_iff d hdsorted w ei hei_lt).mp hcon
    omega
  have hd_lt : d[ei - 1] < d[ei] :=
    List.pairwise_iff_getElem.mp hdpw _ _ hsi_lt hei_lt (by omega)
  have hdden : d[ei] - d[ei - 1] ≠ 0 := ne_of_gt (sub_pos.mpr hd_lt)
  have hrden : r[ei] - r[ei - 1] ≠ 0 := ne_of_gt (sub_pos.mpr hflat)
  have hp_gt : r[ei - 1] < p := by
    rw [hp]
    have h1 : 0 < w - d[ei - 1] := by linarith
    have h2 : 0 < d[ei] - d[ei - 1] := by linarith
    have h3 : 0 < r[ei] - r[ei - 1] := by linarith
    have h4 := mul_pos (div_pos h1 h2) h3
    linarith
  have hp_le : p ≤ r[ei] := by
    rw [hp]
    have h2 : 0 < d[ei] - d[ei - 1] := by linarith
    have h3 : 0 ≤ r[ei] - r[ei - 1] := by linarith
    have hfrac : (w - d[ei - 1]) / (d[ei] - d[ei - 1]) ≤ 1 := by
      rw [div_le_one h2]
      linarith
    have h4 : (0 : ℚ) ≤ (1 - (w - d[ei - 1]) / (d[ei] - d[ei - 1])) * (r[ei] - r[ei - 1]) :=
      mul_nonneg (by linarith) h3
    nlinarith
  have hcount : np_searchsorted_left r p = ei := by
    have hle1 : ei ≤ np_searchsorted_left r p := by
      have := (sorted_countP_iff r hrsorted p _ hr_si_lt).mp hp_gt
      omega
    have hle2 : np_searchsorted_left r p ≤ ei := by
      by_contra hcon
      push_neg at hcon
      have : r[ei] < p := (sorted_countP_iff r hrsorted p ei hr_ei_lt).mpr hcon
      linarith
    omega
  refine ⟨hcount, ?_⟩
  rw [hp]
  field_simp
  ring

lemma roundtrip_core (pts : List (ℚ × ℚ)) (hn : pts ≠ [])
    (hchain : List.Chain' cdf_point_mono pts) (w : ℚ)
    (hlo : (pts.map Prod.fst).headD 0 < w)
    (hhi : w < (pts.map Prod.fst).getLastD 0)
    (hflat : (pts.map Prod.snd).getD (np_searchsorted_left (pts.map Prod.fst) w - 1) 0
      < (pts.map Prod.snd).getD (np_searchsorted_left (pts.map Prod.fst) w) 0) :
    quantile_of pts (prob_less_of pts w) = w := by
  haveI : IsTrans (ℚ × ℚ) cdf_point_mono :=
    ⟨fun a b c hab hbc => ⟨lt_trans hab.1 hbc.1, le_trans hab.2 hbc.2⟩⟩
  have hpw : List.Pairwise cdf_point_mono pts := List.chain'_iff_pairwise.mp hchain
  have hdpw : List.Pairwise (· < ·) (pts.map Prod.fst) := by
    rw [List.pairwise_map]
    exact hpw.imp (fun h => h.1)
  have hrpw : List.Pairwise (· ≤ ·) (pts.map Prod.snd) := by
    rw [List.pairwise_map]
    exact hpw.imp (fun h => h.2)
  have hd_ne : pts.map Prod.fst ≠ [] := by simp [hn]
  have hdsorted : List.Sorted (· ≤ ·) (pts.map Prod.fst) := hdpw.imp (fun h => le_of_lt h)
  have hn0 : 0 < (pts.map Prod.fst).length := List.length_pos.mpr hd_ne
  have hei_pos : 1 ≤ np_searchsorted_left (pts.map Prod.fst) w := by
    have h0 : (pts.map Prod.fst)[0] < w := by
      rw [← headD_eq_getElem _ 0 hn0]
      exact hlo
    have := (sorted_countP_iff _ hdsorted w 0 hn0).mp h0
    omega
  have hei_lt : np_searchsorted_left (pts.map Prod.fst) w < (pts.map Prod.fst).length := by
    have hl : (pts.map Prod.fst).length - 1 < (pts.map Prod.fst).length := by omega
    have hlastv : ¬ ((pts.map Prod.fst)[(pts.map Prod.fst).length - 1] < w) := by
      rw [← getLastD_eq_getElem _ 0 hn0]
      exact not_lt.mpr (le_of_lt hhi)
    by_contra hcon
    push_neg at hcon
    exact hlastv ((sorted_countP_iff _ hdsorted w _ hl).mpr (by omega))
  have hlen_rd : (pts.map Prod.snd).length = (pts.map Prod.fst).length := by simp
  have hp : prob_less_of pts w
      = (pts.map Prod.snd).getD (np_searchsorted_left (pts.map Prod.fst) w - 1) 0
        + (w - (pts.map Prod.fst).getD (np_searchsorted_left (pts.map Prod.fst) w - 1) 0)
          / ((pts.map Prod.fst).getD (np_searchsorted_left (pts.map Prod.fst) w) 0
            - (pts.map Prod.fst).getD (np_searchsorted_left (pts.map Prod.fst) w - 1) 0)
          * ((pts.map Prod.snd).getD (np_searchsorted_left (pts.map Prod.fst) w) 0
            - (pts.map Prod.snd).getD (np_searchsorted_left (pts.map Prod.fst) w - 1) 0) := by
    simp only [prob_less_of]
    rw [if_neg (by omega), if_neg (by omega)]
  obtain ⟨hcount, hinterp⟩ := interp_roundtrip (pts.map Prod.fst) (pts.map Prod.snd) w
    (prob_less_of pts w) (np_searchsorted_left (pts.map Prod.fst) w)
    hlen_rd hdpw hrpw rfl hei_pos hei_lt hflat hp
  simp only [quantile_of]
  rw [hcount, if_neg (by omega)]
  exact hinterp

lemma cdf_concrete_C4 :
    get_cumulative_distribution (get_stats [0, 5, 100] (some 0) (some 20))
      = Except.ok (some [(0, 0), (1/12, 1/4), (4/3, 1/4), (19/12, 1)]) := by
  have hrec : get_stats [0, 5, 100] (some 0) (some 20)
      = { time_values := [0, 5, 100], is_empty := false, interval_start := 0,
          interval_end := 20, start_arrival_index := 0, end_arrival_index := 2,
          interval_time_values := [0, 5], interval_headways := [0, 5],
          end_elapsed_time := 15, end_wait_time := some 80 } := by decide
  have hcdf : cdf_compute (get_stats [0, 5, 100] (some 0) (some 20))
      = some [(0, 0), (1/12, 1/4), (4/3, 1/4), (19/12, 1)] := by
    rw [hrec]
    norm_num [cdf_compute, cdf_loop, List.insertionSort, List.orderedInsert]
  simp only [get_cumulative_distribution, hcdf]
  rw [if_neg]
  push_neg
  constructor <;> simp [List.getLast?]

end WaitTimes

namespace WaitTimes

/-- C4 counterexample: for timestamps `[0, 5, 100]` on interval `[0, 20]` the
CDF has a flat segment between wait times 1/12 and 4/3 minutes; for `w = 1`
minute (strictly between the CDF's minimum 0 and maximum 19/12),
`get_probability_less_than` returns 1/4 but `get_quantiles [1/4]` returns
1/12 ≠ 1, refuting the unrestricted round-trip law. -/
theorem C4_roundtrip_counterexample :
    get_cumulative_distribution (get_stats [0, 5, 100] (some 0) (some 20))
      = Except.ok (some [(0, 0), (1/12, 1/4), (4/3, 1/4), (19/12, 1)]) ∧
    ((0 : ℚ) < 1 ∧ (1 : ℚ) < 19/12) ∧
    get_probability_less_than (get_stats [0, 5, 100] (some 0) (some 20)) 1
      = Except.ok (some (1/4)) ∧
    get_quantiles (get_stats [0, 5, 100] (some 0) (some 20)) [1/4]
      = Except.ok (some [1/12]) ∧
    ((1 : ℚ)/12 ≠ 1) := by
  refine ⟨cdf_concrete_C4, ⟨by norm_num, by norm_num⟩, ?_, ?_, by norm_num⟩
  · have h1 : prob_less_of [(0, 0), (1/12, 1/4), (4/3, 1/4), (19/12, 1)] 1 = 1/4 := by
      norm_num [prob_less_of, np_searchsorted_left, List.countP_cons, List.getD, List.get?]
    simp only [get_probability_less_than, cdf_concrete_C4, h1]
  · have h2 : quantile_of [(0, 0), (1/12, 1/4), (4/3, 1/4), (19/12, 1)] (1/4) = 1/12 := by
      norm_num [quantile_of, np_searchsorted_left, List.countP_cons, List.getD, List.get?]
    simp only [get_quantiles, cdf_concrete_C4, List.map_cons, List.map_nil, h2]

/-- C4 (amended): the round-trip law
`get_quantiles [get_probability_less_than w] = [w]` holds for wait times `w`
strictly between the CDF's minimum and maximum wait-time values whenever the
CDF segment bracketing `w` has strictly increasing probability (without that
restriction the law fails on flat segments, see the counterexample). -/
theorem C4_quantile_roundtrip_amended (tv : List Int) (st et : Option Int)
    (htv : tv ≠ []) (hs : List.Sorted (· ≤ ·) tv)
    (hne : (get_stats tv st et).is_empty = false) (w : ℚ) (pts : List (ℚ × ℚ))
    (hpts : get_cumulative_distribution (get_stats tv st et) = Except.ok (some pts))
    (hlo : (pts.map Prod.fst).headD 0 < w) (hhi : w < (pts.map Prod.fst).getLastD 0)
    (hflat : (pts.map Prod.snd).getD (np_searchsorted_left (pts.map Prod.fst) w - 1) 0
      < (pts.map Prod.snd).getD (np_searchsorted_left (pts.map Prod.fst) w) 0) :
    get_probability_less_than (get_stats tv st et) w
      = Except.ok (some (prob_less_of pts w)) ∧
    get_quantiles (get_stats tv st et) [prob_less_of pts w] = Except.ok (some [w]) := by
  obtain ⟨pts2, hok, hne2, _, _, hchain⟩ := get_cdf_ok tv st et htv hs hne
  rw [hok] at hpts
  have hpp : pts2 = pts := by
    injection hpts with h
    injection h
  subst hpp
  constructor
  · simp only [get_probability_less_than, hok]
  · simp only [get_quantiles, hok, List.map_cons, List.map_nil]
    rw [roundtrip_core pts2 hne2 hchain w hlo hhi hflat]

/-- C4 witness at timestamps `[0, 5, 100]`, interval `[0, 20]`, `w = 1/24`
minutes (inside the strictly increasing first segment). -/
theorem C4_quantile_roundtrip_amended_witness :
    get_probability_less_than (get_stats [0, 5, 100] (some 0) (some 20)) (1/24)
      = Except.ok (some
        (prob_less_of [(0, 0), (1/12, 1/4), (4/3, 1/4), (19/12, 1)] (1/24))) ∧
    get_quantiles (get_stats [0, 5, 100] (some 0) (some 20))
        [prob_less_of [(0, 0), (1/12, 1/4), (4/3, 1/4), (19/12, 1)] (1/24)]
      = Except.ok (some [1/24]) :=
  C4_quantile_roundtrip_amended [0, 5, 100] (some 0) (some 20) (by decide) (by decide)
    (by decide) (1/24) [(0, 0), (1/12, 1/4), (4/3, 1/4), (19/12, 1)]
    cdf_concrete_C4
    (by norm_num)
    (by norm_num [List.getLastD])
    (by norm_num [np_searchsorted_left, List.countP_cons, List.getD, List.get?])

end WaitTimes
